import Mathlib

/-!
# LeadGen — formal model of the lead-scoring and caching core

A shallow embedding of the scoring, normalization, deduplication and
caching subsystem of the LeadGen repository.  Python functions are
translated to executable Lean definitions:

* `Company` models the dataclass `models/company.py:Company`; absent
  optional string fields are the empty string, exactly as in the source.
* The value `datetime.now().year`, read by every scorer, is passed in
  explicitly as a `currentYear : Nat` argument, making the clock
  dependence of the code visible.
* Python `int` is `Int`; SQLite row stores are lists of rows.
* Python's `json` module (an external library) is modelled by an
  executable printer `pydumps` and parser `pyloads` over the AST `PyObj`
  covering null, booleans, integers, strings, arrays and objects
  (JSON floats are outside the model).
-/

namespace LeadGen

/-- Characters Python's `str.strip()` removes (the ASCII whitespace forms
relevant here); used by the model of Python `int(str)`. -/
def isPySpace (c : Char) : Bool :=
  c = ' ' || c = '\t' || c = '\n' || c = '\r' || c.toNat = 11 || c.toNat = 12

/-- Numeric value of a decimal digit character. -/
def digVal (c : Char) : Nat := c.toNat - 48

/-- Value of a list of decimal digit characters, most significant first. -/
def digitsVal (cs : List Char) : Nat :=
  cs.foldl (fun a c => a * 10 + digVal c) 0

/-- Model of Python `int(s)` for a decimal string: strip surrounding
whitespace, allow one optional sign, then require at least one digit.
(Underscore separators and non-ASCII digits accepted by CPython are
outside the model; every string the claims evaluate is plain decimal.)
Returns `none` where `int(s)` raises `ValueError`. -/
def pyIntParse (s : String) : Option Int :=
  let cs := ((s.toList.dropWhile isPySpace).reverse.dropWhile isPySpace).reverse
  let core : List Char → Option Nat := fun ds =>
    if ds.isEmpty then Option.none
    else if ds.all Char.isDigit then some (digitsVal ds) else Option.none
  match cs with
  | '-' :: ds => (core ds).map (fun n => -(n : Int))
  | '+' :: ds => (core ds).map (fun n => (n : Int))
  | ds => (core ds).map (fun n => (n : Int))

/-- `listContains hay needle`: does `needle` occur as a contiguous
sublist of `hay`?  Models Python's `needle in hay` on strings. -/
def listContains (hay needle : List Char) : Bool :=
  match hay with
  | [] => needle.isEmpty
  | _ :: cs => needle.isPrefixOf hay || listContains cs needle

/-- Model of Python `needle in hay` for strings. -/
def strContains (hay needle : String) : Bool :=
  listContains hay.toList needle.toList

/-- The `Company` dataclass of `models/company.py`.  Optional fields
default to the empty string (`lead_score` to 50), exactly as in the
dataclass declaration; `scraped_at` is a timestamp (seconds). -/
structure Company where
  name : String
  city : String
  state : String
  id : Option Int := Option.none
  address : String := ""
  zipcode : String := ""
  phone : String := ""
  email : String := ""
  website : String := ""
  category : String := ""
  building_size : String := ""
  year_built : String := ""
  description : String := ""
  source : String := ""
  lead_score : Int := 50
  ai_analysis : String := ""
  contact_person : String := ""
  contact_title : String := ""
  contact_email : String := ""
  contact_phone : String := ""
  scraped_at : Nat := 0
  notes : String := ""

/-- Building-age bonus shared verbatim by `Company.calculate_lead_score`
and `BaseScraper.calculate_lead_score`: parse `year_built` with `int()`,
award 20/15/10 points for age over 30/20/10 years, nothing on a parse
failure. -/
def ageBonus (currentYear : Nat) (year_built : String) : Int :=
  if year_built = "" then 0
  else
    match pyIntParse year_built with
    | some year =>
      let age : Int := (currentYear : Int) - year
      if age > 30 then 20 else if age > 20 then 15 else if age > 10 then 10 else 0
    | Option.none => 0

/-- Building-size bonus of the model scorer and the base web-scrape
scorer: 15/10/5 for a `large`/`medium`/`small` substring of the
lowercased text. -/
def sizeBonus15 (building_size : String) : Int :=
  if building_size = "" then 0
  else
    let t := building_size.toLower
    if strContains t "large" then 15
    else if strContains t "medium" then 10
    else if strContains t "small" then 5
    else 0

/-- The energy-sector keyword list shared by `Company.calculate_lead_score`
and `BaseScraper.calculate_lead_score`. -/
def energyKeywords : List String :=
  ["energy", "utilities", "building", "property", "office", "commercial",
   "industrial", "manufacturing", "factory", "school", "hospital",
   "hotel", "retail", "restaurant", "mall", "warehouse"]

/-- Category bonus of the model scorer: +5 once on the first matching
energy keyword (the loop breaks after one match). -/
def categoryBonus5 (category : String) : Int :=
  if category = "" then 0
  else
    let c := category.toLower
    if energyKeywords.any (fun k => strContains c k) then 5 else 0

/-- `Company.calculate_lead_score` from `models/company.py`: base 50,
bonuses for building age, building size, website, contact person/title,
email/phone, description and category, capped at 100.  `currentYear` is
the value of `datetime.now().year` read during the call. -/
def Company.calculate_lead_score (currentYear : Nat) (c : Company) : Int :=
  let score : Int := 50
  let score := score + ageBonus currentYear c.year_built
  let score := score + sizeBonus15 c.building_size
  let score := score + (if c.website = "" then 0 else 10)
  let score := score + (if c.contact_person = "" && c.contact_title = "" then 0 else 10)
  let score := score + (if c.email = "" && c.phone = "" then 0 else 5)
  let score := score + (if c.description = "" then 0 else 5)
  let score := score + categoryBonus5 c.category
  min score 100

/-- Keyword-count bonus of `BaseScraper.calculate_lead_score`: the
energy keywords are counted over the space-joined lowercased description
and category, 3 points each, capped at 15. -/
def keywordCountBonus (description category : String) : Int :=
  let text := description.toLower ++ " " ++ category.toLower
  let found : Nat := energyKeywords.countP (fun k => strContains text k)
  min ((found : Int) * 3) 15

/-- `BaseScraper.calculate_lead_score` from `scrapers/base_scraper.py`:
base 50, bonuses for building age, website, contact details, email/phone,
description, building size and counted energy keywords, capped at 100. -/
def BaseScraper.calculate_lead_score (currentYear : Nat) (c : Company) : Int :=
  let score : Int := 50
  let score := score + ageBonus currentYear c.year_built
  let score := score + (if c.website = "" then 0 else 10)
  let score := score + (if c.contact_person = "" && c.contact_title = "" then 0 else 10)
  let score := score + (if c.email = "" && c.phone = "" then 0 else 5)
  let score := score + (if c.description = "" then 0 else 5)
  let score := score + sizeBonus15 c.building_size
  let score := score + keywordCountBonus c.description c.category
  min score 100

/-- Building-size bonus of the AI-lead scorer: 20/10/5. -/
def aiSizeBonus (building_size : String) : Int :=
  if building_size = "" then 0
  else
    let t := building_size.toLower
    if strContains t "large" then 20
    else if strContains t "medium" then 10
    else if strContains t "small" then 5
    else 0

/-- Year bonus of the AI-lead scorer: numeric years score by age as in
the other scorers; a non-numeric `year_built` instead scores 15 when it
contains `old` or `aging`. -/
def aiYearBonus (currentYear : Nat) (year_built : String) : Int :=
  if year_built = "" then 0
  else
    match pyIntParse year_built with
    | some year =>
      let age : Int := (currentYear : Int) - year
      if age > 30 then 20 else if age > 20 then 15 else if age > 10 then 10 else 0
    | Option.none =>
      let t := year_built.toLower
      if strContains t "old" || strContains t "aging" then 15 else 0

/-- High-energy sector list of `AILeadFinder._calculate_lead_score`. -/
def highEnergySectors : List String :=
  ["manufacturing", "industrial", "factory", "warehouse",
   "hospital", "healthcare", "hotel", "lodging", "data center",
   "office building", "school", "university", "retail"]

/-- Category bonus of the AI-lead scorer: +15 once on the first matching
sector. -/
def aiCategoryBonus (category : String) : Int :=
  if category = "" then 0
  else
    let c := category.toLower
    if highEnergySectors.any (fun k => strContains c k) then 15 else 0

/-- Opportunity keyword list of `AILeadFinder._calculate_lead_score`. -/
def opportunityKeywords : List String :=
  ["high energy", "inefficient", "outdated", "saving", "cost reduction",
   "upgrade", "retrofit", "improvement", "consumption", "bill", "expense"]

/-- AI-analysis bonus: 3 points per opportunity keyword found in the
lowercased analysis text, capped at 15. -/
def aiAnalysisBonus (ai_analysis : String) : Int :=
  if ai_analysis = "" then 0
  else
    let a := ai_analysis.toLower
    let count : Nat := opportunityKeywords.countP (fun k => strContains a k)
    min ((count : Int) * 3) 15

/-- Decision-maker role list of `AILeadFinder._calculate_lead_score`. -/
def decisionMakerRoles : List String :=
  ["owner", "ceo", "president", "director", "manager", "facility"]

/-- Contact-title bonus of the AI-lead scorer: +10 once on the first
matching decision-maker role. -/
def aiContactBonus (contact_title : String) : Int :=
  if contact_title = "" then 0
  else
    let t := contact_title.toLower
    if decisionMakerRoles.any (fun r => strContains t r) then 10 else 0

/-- `AILeadFinder._calculate_lead_score` from `ai/lead_finder.py`:
base 50, bonuses for building size, year/age, sector category,
opportunity keywords in the AI analysis and decision-maker contact
title, capped at 100. -/
def AILeadFinder.calculate_lead_score (currentYear : Nat) (c : Company) : Int :=
  let score : Int := 50
  let score := score + aiSizeBonus c.building_size
  let score := score + aiYearBonus currentYear c.year_built
  let score := score + aiCategoryBonus c.category
  let score := score + aiAnalysisBonus c.ai_analysis
  let score := score + aiContactBonus c.contact_title
  min score 100

/-! ### A model of Python values and of the `json` module

`cache_set` serializes non-string values with `json.dumps` and
`cache_get` attempts `json.loads` on every stored string, falling back
to the raw string.  The `json` module is external library code; it is
modelled here by an executable printer and parser over the AST `PyObj`.
JSON null and Python `None` are one and the same value (`PyObj.none`),
exactly as in Python, where `json.loads("null")` *is* `None`.  JSON
floats (and the float literals `Infinity`/`NaN` accepted by CPython) are
outside the model. -/

/-- Python values as stored in and returned from the cache layer:
`None`, booleans, integers, strings, lists and string-keyed dicts. -/
inductive PyObj where
  | none
  | bool (b : Bool)
  | int (n : Int)
  | str (s : String)
  | list (xs : List PyObj)
  | dict (kvs : List (String × PyObj))

/-- The opening brace character. -/
def lbrace : Char := Char.ofNat 123

/-- The closing brace character. -/
def rbrace : Char := Char.ofNat 125

/-- JSON escape of one character, as `json.dumps` emits it: the short
escapes for quote, backslash and the common control characters, a
`\u00XX` escape for the remaining control characters, and the character
itself otherwise.  (`ensure_ascii` escaping of non-ASCII characters
changes only the byte representation, not the parsed value, and is not
modelled.) -/
def escapeChar (c : Char) : List Char :=
  if c = '"' then ['\\', '"']
  else if c = '\\' then ['\\', '\\']
  else if c = '\n' then ['\\', 'n']
  else if c = '\r' then ['\\', 'r']
  else if c = '\t' then ['\\', 't']
  else if c.toNat = 8 then ['\\', 'b']
  else if c.toNat = 12 then ['\\', 'f']
  else if c.toNat < 32 then
    ['\\', 'u', '0', '0', Nat.digitChar (c.toNat / 16), Nat.digitChar (c.toNat % 16)]
  else [c]

/-- Escape every character of a string body. -/
def esc : List Char → List Char
  | [] => []
  | c :: cs => escapeChar c ++ esc cs

/-- A JSON string literal: quote, escaped body, quote. -/
def escapeStr (s : String) : List Char :=
  '"' :: esc s.toList ++ ['"']

/-- Decimal digits of `n`, most significant first, by fuel-structural
recursion (the fuel `n + 1` always suffices). -/
def natDigsAux : Nat → Nat → List Char → List Char
  | 0, _, acc => acc
  | fuel + 1, n, acc =>
    if n < 10 then Nat.digitChar n :: acc
    else natDigsAux fuel (n / 10) (Nat.digitChar (n % 10) :: acc)

/-- Decimal representation of a natural number. -/
def natChars (n : Nat) : List Char := natDigsAux (n + 1) n []

/-- Decimal representation of an integer, with a leading minus sign for
negative values, as `json.dumps` prints Python ints. -/
def intChars (n : Int) : List Char :=
  if n < 0 then '-' :: natChars n.natAbs else natChars n.toNat

mutual

/-- `json.dumps` with its default separators `", "` and `": "`, over the
modelled AST.  `dumpElems` and `dumpMembers` render comma-separated
array elements and object members. -/
def dumpChars : PyObj → List Char
  | .none => 'n' :: 'u' :: 'l' :: 'l' :: []
  | .bool true => 't' :: 'r' :: 'u' :: 'e' :: []
  | .bool false => 'f' :: 'a' :: 'l' :: 's' :: 'e' :: []
  | .int n => intChars n
  | .str s => escapeStr s
  | .list xs => '[' :: dumpElems xs ++ [']']
  | .dict kvs => lbrace :: dumpMembers kvs ++ [rbrace]
termination_by v => sizeOf v

/-- Comma-separated rendering of array elements. -/
def dumpElems : List PyObj → List Char
  | [] => []
  | [x] => dumpChars x
  | x :: y :: ys => dumpChars x ++ ',' :: ' ' :: dumpElems (y :: ys)
termination_by xs => sizeOf xs

/-- Comma-separated rendering of object members. -/
def dumpMembers : List (String × PyObj) → List Char
  | [] => []
  | [(k, v)] => escapeStr k ++ ':' :: ' ' :: dumpChars v
  | (k, v) :: m :: ms =>
    escapeStr k ++ ':' :: ' ' :: dumpChars v ++ ',' :: ' ' :: dumpMembers (m :: ms)
termination_by ms => sizeOf ms

end

/-- The model of `json.dumps`. -/
def pydumps (v : PyObj) : String := String.mk (dumpChars v)

/-- The whitespace characters JSON permits between tokens. -/
def isJsonWs (c : Char) : Bool :=
  c = ' ' || c = '\t' || c = '\n' || c = '\r'

/-- Skip insignificant whitespace. -/
def skipWs (cs : List Char) : List Char := cs.dropWhile isJsonWs

/-- Value of one hexadecimal digit character. -/
def hexVal (c : Char) : Option Nat :=
  let n := c.toNat
  if 48 ≤ n ∧ n ≤ 57 then some (n - 48)
  else if 97 ≤ n ∧ n ≤ 102 then some (n - 87)
  else if 65 ≤ n ∧ n ≤ 70 then some (n - 55)
  else Option.none

/-- The character named by a two-character JSON escape. -/
def escCharInv (e : Char) : Option Char :=
  if e = '"' then some '"'
  else if e = '\\' then some '\\'
  else if e = '/' then some '/'
  else if e = 'n' then some '\n'
  else if e = 'r' then some '\r'
  else if e = 't' then some '\t'
  else if e = 'b' then some (Char.ofNat 8)
  else if e = 'f' then some (Char.ofNat 12)
  else Option.none

/-- Parse the body of a JSON string literal after the opening quote,
accumulating decoded characters in reverse.  Raw control characters are
rejected, as in the strict mode `json.loads` uses by default. -/
def parseStrAux : List Char → List Char → Option (String × List Char)
  | _, [] => Option.none
  | acc, c :: cs =>
    if c = '"' then some (String.mk acc.reverse, cs)
    else if c = '\\' then
      match cs with
      | [] => Option.none
      | e :: cs' =>
        if e = 'u' then
          match cs' with
          | h1 :: h2 :: h3 :: h4 :: cs'' =>
            match hexVal h1, hexVal h2, hexVal h3, hexVal h4 with
            | some a, some b, some x, some d =>
              let n := ((a * 16 + b) * 16 + x) * 16 + d
              if Nat.isValidChar n then parseStrAux (Char.ofNat n :: acc) cs''
              else Option.none
            | _, _, _, _ => Option.none
          | _ => Option.none
        else
          match escCharInv e with
          | some ec => parseStrAux (ec :: acc) cs'
          | Option.none => Option.none
    else if c.toNat < 32 then Option.none
    else parseStrAux (c :: acc) cs

/-- Parse an unsigned JSON integer: a maximal digit run, rejecting an
empty run and a leading zero on a multi-digit run. -/
def parseNatNum (cs : List Char) : Option (Nat × List Char) :=
  match cs.takeWhile Char.isDigit with
  | [] => Option.none
  | [d] => some (digVal d, cs.dropWhile Char.isDigit)
  | d :: _ :: _ =>
    if d = '0' then Option.none
    else some (digitsVal (cs.takeWhile Char.isDigit), cs.dropWhile Char.isDigit)

/-- Parse a JSON integer with optional leading minus sign. -/
def parseNum : List Char → Option (Int × List Char)
  | [] => Option.none
  | c :: cs =>
    if c = '-' then
      match parseNatNum cs with
      | some (n, r) => some (-(n : Int), r)
      | Option.none => Option.none
    else
      match parseNatNum (c :: cs) with
      | some (n, r) => some ((n : Int), r)
      | Option.none => Option.none

mutual

/-- Recursive-descent JSON parser over the modelled fragment, by fuel;
`parseElems` and `parseMembers` parse the comma-separated interiors of
non-empty arrays and objects. -/
def parseVal : Nat → List Char → Option (PyObj × List Char)
  | 0, _ => Option.none
  | fuel + 1, cs =>
    match skipWs cs with
    | [] => Option.none
    | c :: cs' =>
      if c = '"' then
        match parseStrAux [] cs' with
        | some (s, rest) => some (.str s, rest)
        | Option.none => Option.none
      else if c = '[' then
        match skipWs cs' with
        | [] => Option.none
        | d :: r =>
          if d = ']' then some (.list [], r)
          else
            match parseElems fuel (d :: r) with
            | some (xs, r') => some (.list xs, r')
            | Option.none => Option.none
      else if c = lbrace then
        match skipWs cs' with
        | [] => Option.none
        | d :: r =>
          if d = rbrace then some (.dict [], r)
          else
            match parseMembers fuel (d :: r) with
            | some (ms, r') => some (.dict ms, r')
            | Option.none => Option.none
      else if c = 'n' then
        match cs' with
        | 'u' :: 'l' :: 'l' :: r => some (.none, r)
        | _ => Option.none
      else if c = 't' then
        match cs' with
        | 'r' :: 'u' :: 'e' :: r => some (.bool true, r)
        | _ => Option.none
      else if c = 'f' then
        match cs' with
        | 'a' :: 'l' :: 's' :: 'e' :: r => some (.bool false, r)
        | _ => Option.none
      else if c = '-' || c.isDigit then
        match parseNum (c :: cs') with
        | some (n, r) => some (.int n, r)
        | Option.none => Option.none
      else Option.none

/-- Parse one or more comma-separated array elements up to the closing
bracket. -/
def parseElems : Nat → List Char → Option (List PyObj × List Char)
  | 0, _ => Option.none
  | fuel + 1, cs =>
    match parseVal fuel cs with
    | some (v, rest) =>
      match skipWs rest with
      | [] => Option.none
      | d :: r =>
        if d = ',' then
          match parseElems fuel r with
          | some (vs, r') => some (v :: vs, r')
          | Option.none => Option.none
        else if d = ']' then some ([v], r)
        else Option.none
    | Option.none => Option.none

/-- Parse one or more comma-separated object members up to the closing
brace. -/
def parseMembers : Nat → List Char → Option (List (String × PyObj) × List Char)
  | 0, _ => Option.none
  | fuel + 1, cs =>
    match skipWs cs with
    | [] => Option.none
    | c :: cs' =>
      if c = '"' then
        match parseStrAux [] cs' with
        | some (k, rest) =>
          match skipWs rest with
          | [] => Option.none
          | d :: r =>
            if d = ':' then
              match parseVal fuel r with
              | some (v, rest₂) =>
                match skipWs rest₂ with
                | [] => Option.none
                | e :: r₂ =>
                  if e = ',' then
                    match parseMembers fuel r₂ with
                    | some (ms, r₃) => some ((k, v) :: ms, r₃)
                    | Option.none => Option.none
                  else if e = rbrace then some ([(k, v)], r₂)
                  else Option.none
              | Option.none => Option.none
            else Option.none
        | Option.none => Option.none
      else Option.none

end

/-- The model of `json.loads`: parse one value, allow trailing
whitespace, reject anything else left over.  The fuel `length + 1`
always suffices because each nesting or element step of the grammar
consumes at least one input character before spending one unit. -/
def pyloads (s : String) : Option PyObj :=
  match parseVal (s.length + 1) s.toList with
  | some (v, rest) => if skipWs rest = [] then some v else Option.none
  | Option.none => Option.none

/-- A tail on which an integer parse cannot overrun: empty or starting
with a non-digit. -/
def noDigitHead (rest : List Char) : Prop :=
  ∀ c cs', rest = c :: cs' → c.isDigit = false

/-! ### The store: companies table and key/value cache (`database.py`)

Rows are modelled as association lists of column values; SQLite `NULL`
(an absent column, a stored Python `None`, or a `None` query parameter)
is `RawVal.vnone` and compares unequal to everything, as in SQL. -/

/-- Dynamic values as they appear in the loosely-typed record dicts fed
to `Company.from_dict` and `Database.insert_company`: Python `None`,
strings, ints and `datetime` objects (timestamps). -/
inductive RawVal where
  | vnone
  | vstr (s : String)
  | vint (n : Int)
  | vdt (t : Nat)
deriving DecidableEq

/-- SQLite equality of two optional column values: a missing column or a
`NULL` value never matches anything (`NULL = x` is not true). -/
def sqlEq (a b : Option RawVal) : Bool :=
  match a, b with
  | some x, some y => x ≠ RawVal.vnone && y ≠ RawVal.vnone && decide (x = y)
  | _, _ => false

/-- One row of the `companies` table: the assigned rowid and the
inserted column values. -/
structure CompanyRow where
  id : Int
  fields : List (String × RawVal)
deriving DecidableEq

/-- The `companies` table plus the next `AUTOINCREMENT` rowid. -/
structure CompanyStore where
  rows : List CompanyRow
  nextId : Int
deriving DecidableEq

/-- The `WHERE name = ? AND city = ?` test of `Database.insert_company`,
with the parameters taken from `company_data.get('name')` and
`company_data.get('city')`. -/
def matchesNameCity (data : List (String × RawVal)) (r : CompanyRow) : Bool :=
  sqlEq (r.fields.lookup "name") (data.lookup "name") &&
  sqlEq (r.fields.lookup "city") (data.lookup "city")

/-- `Database.insert_company` from `database.py`: look up an existing
row by exact (name, city) match and return its id with the store
untouched; otherwise insert all supplied fields as a new row and return
the fresh rowid.  (The `sqlite3.Error → None` failure path has no
counterpart in the pure model.) -/
def Database.insert_company (s : CompanyStore) (data : List (String × RawVal)) :
    Option Int × CompanyStore :=
  match s.rows.find? (matchesNameCity data) with
  | some r => (some r.id, s)
  | Option.none =>
    (some s.nextId,
     { rows := s.rows ++ [{ id := s.nextId, fields := data }], nextId := s.nextId + 1 })

/-- One row of the `cache` table; `key` is its PRIMARY KEY. -/
structure CacheRow where
  key : String
  value : String
  created_at : Nat
deriving DecidableEq

/-- The cache table together with the process-wide `CACHE_ENABLED` flag
and `CACHE_EXPIRY` TTL from `config.py`. -/
structure CacheDB where
  enabled : Bool
  expiry : Nat
  rows : List CacheRow
deriving DecidableEq

/-- `Database.cache_set`: no-op returning `False` when caching is
disabled; otherwise strings are stored raw, any other value is stored as
its `json.dumps` text, under `INSERT OR REPLACE` semantics (the old row
for the key, if any, is deleted), with `created_at := now`. -/
def Database.cache_set (db : CacheDB) (key : String) (value : PyObj) (now : Nat) :
    Bool × CacheDB :=
  if db.enabled = false then (false, db)
  else
    let raw := match value with
      | PyObj.str s => s
      | v => pydumps v
    (true, { db with rows := db.rows.filter (fun r => !(r.key == key)) ++ [⟨key, raw, now⟩] })

/-- The read path of `Database.cache_get` after the row is fetched:
`json.loads` the stored text, falling back to the raw string when it is
not valid JSON. -/
def deserializeValue (raw : String) : PyObj :=
  match pyloads raw with
  | some v => v
  | Option.none => PyObj.str raw

/-- `Database.cache_get`: `None` when caching is disabled; otherwise the
single SQL query selects the row whose key matches *and* which is still
fresh (`datetime('now') < created_at + CACHE_EXPIRY`), and its
deserialized value is returned; every other outcome is `None`.  Python
returns the same `None` for a miss and for a stored JSON `null`. -/
def Database.cache_get (db : CacheDB) (key : String) (now : Nat) : PyObj :=
  if db.enabled = false then PyObj.none
  else
    match db.rows.find? (fun r => r.key == key && decide (now < r.created_at + db.expiry)) with
    | some r => deserializeValue r.value
    | Option.none => PyObj.none

/-- `Database.cache_clear`: no-op returning `False` when caching is
disabled; `if key:` (Python truthiness) deletes the one row for a
*non-empty* key, while `None` — or the falsy empty string — deletes the
whole table. -/
def Database.cache_clear (db : CacheDB) (key : Option String) : Bool × CacheDB :=
  if db.enabled = false then (false, db)
  else
    match key with
    | some k =>
      if k = "" then (true, { db with rows := [] })
      else (true, { db with rows := db.rows.filter (fun r => !(r.key == k)) })
    | Option.none => (true, { db with rows := [] })

/-- The score-update step of `AIAnalyzer.analyze_company`
(`ai/analyzer.py`): when a score was extracted from the LLM text, the
stored score becomes `int((original + ai_score) / 2)` — Python true
division truncates toward zero, hence `Int.tdiv`; for the score range in
use the sum is far below 2^53, so the float division is exact — where
`original` defaults to 50 if the record has no score; with no extracted
score the record's score is left untouched. -/
def AIAnalyzer.apply_ai_score (lead_score : Option Int) (extracted : Option Int) : Option Int :=
  match extracted with
  | some ai => some (Int.tdiv (lead_score.getD 50 + ai) 2)
  | Option.none => lead_score

/-! ### Normalization: `Company.from_dict` (`models/company.py`) -/

/-- The field names of the `Company` dataclass
(`cls.__annotations__.keys()`). -/
def validFields : List String :=
  ["name", "city", "state", "id", "address", "zipcode", "phone", "email", "website",
   "category", "building_size", "year_built", "description", "source", "lead_score",
   "ai_analysis", "contact_person", "contact_title", "contact_email", "contact_phone",
   "scraped_at", "notes"]

/-- Dict assignment `d[k] = v` for a key already present. -/
def setKey (d : List (String × RawVal)) (k : String) (v : RawVal) : List (String × RawVal) :=
  d.map (fun kv => if kv.1 = k then (k, v) else kv)

/-- The `isinstance(d.get(key), str)` guarded coercion used by
`from_dict` on `scraped_at` and `lead_score`: when the key holds a
string, replace it by `f` of that string; otherwise leave the dict
alone. -/
def coerceStrField (d : List (String × RawVal)) (key : String) (f : String → RawVal) :
    List (String × RawVal) :=
  match d.lookup key with
  | some (RawVal.vstr s) => setKey d key (f s)
  | _ => d

/-- The dataclass defaults of the optional `Company` fields, applied by
`cls(**filtered)` to every field absent from the input. -/
def companyDefaults (now : Nat) : List (String × RawVal) :=
  [("id", RawVal.vnone), ("address", RawVal.vstr ""), ("zipcode", RawVal.vstr ""),
   ("phone", RawVal.vstr ""), ("email", RawVal.vstr ""), ("website", RawVal.vstr ""),
   ("category", RawVal.vstr ""), ("building_size", RawVal.vstr ""),
   ("year_built", RawVal.vstr ""), ("description", RawVal.vstr ""),
   ("source", RawVal.vstr ""), ("lead_score", RawVal.vint 50),
   ("ai_analysis", RawVal.vstr ""), ("contact_person", RawVal.vstr ""),
   ("contact_title", RawVal.vstr ""), ("contact_email", RawVal.vstr ""),
   ("contact_phone", RawVal.vstr ""), ("scraped_at", RawVal.vdt now),
   ("notes", RawVal.vstr "")]

/-- Fill in the dataclass defaults for the optional fields the filtered
input does not supply. -/
def fillDefaults (now : Nat) (d : List (String × RawVal)) : List (String × RawVal) :=
  d ++ (companyDefaults now).filter (fun kv => (d.lookup kv.1).isNone)

/-- `Company.from_dict`: coerce a string `scraped_at` through
`datetime.fromisoformat` (the external stdlib parser is the `parseIso`
parameter; the `.replace('Z', '+00:00')` step is modelled verbatim),
falling back to the current time; coerce a string `lead_score` through
`int()`, falling back to 50; drop keys that are not dataclass fields;
then construct the object.  `cls(**filtered)` raises `TypeError` exactly
when one of the required fields name/city/state is absent — modelled as
`none`.  The `some` result is the constructed object's field dictionary,
defaults included. -/
def Company.from_dict (parseIso : String → Option Nat) (now : Nat)
    (data : List (String × RawVal)) : Option (List (String × RawVal)) :=
  let d1 := coerceStrField data "scraped_at" (fun s =>
    match parseIso (s.replace "Z" "+00:00") with
    | some t => RawVal.vdt t
    | Option.none => RawVal.vdt now)
  let d2 := coerceStrField d1 "lead_score" (fun s =>
    match pyIntParse s with
    | some n => RawVal.vint n
    | Option.none => RawVal.vint 50)
  let filtered := d2.filter (fun kv => validFields.contains kv.1)
  if (filtered.lookup "name").isSome && (filtered.lookup "city").isSome &&
      (filtered.lookup "state").isSome then
    some (fillDefaults now filtered)
  else Option.none

/-! ### Round trip of the `json` model: `pyloads (pydumps v) = some v` -/

theorem skipWs_cons_of_not_ws {c : Char} (h : isJsonWs c = false) (cs : List Char) :
    skipWs (c :: cs) = c :: cs := by
  simp [skipWs, List.dropWhile, h]

theorem skipWs_cons_space (cs : List Char) : skipWs (' ' :: cs) = skipWs cs := by
  simp [skipWs, List.dropWhile]
  rfl

theorem digit_toNat {c : Char} (h : c.isDigit = true) :
    48 ≤ c.toNat ∧ c.toNat ≤ 57 := by
  simp only [Char.isDigit, Bool.and_eq_true, decide_eq_true_eq] at h
  obtain ⟨h1, h2⟩ := h
  exact ⟨h1, h2⟩

/-- A decimal digit character is distinct from every structural
character the parser dispatches on, and is not whitespace. -/
theorem digit_facts {c : Char} (h : c.isDigit = true) :
    c ≠ '"' ∧ c ≠ '[' ∧ c ≠ lbrace ∧ c ≠ 'n' ∧ c ≠ 't' ∧ c ≠ 'f' ∧ c ≠ '-' ∧
    c ≠ ']' ∧ c ≠ ',' ∧ c ≠ rbrace ∧ c ≠ ':' ∧ isJsonWs c = false := by
  obtain ⟨h1, h2⟩ := digit_toNat h
  have hne : ∀ d : Char, d.toNat < 48 ∨ 57 < d.toNat → c ≠ d := by
    intro d hd he
    subst he
    omega
  refine ⟨hne _ (by decide), hne _ (by decide), hne _ (by decide), hne _ (by decide),
    hne _ (by decide), hne _ (by decide), hne _ (by decide), hne _ (by decide),
    hne _ (by decide), hne _ (by decide), hne _ (by decide), ?_⟩
  simp only [isJsonWs, Bool.or_eq_false_iff, decide_eq_false_iff_not]
  refine ⟨⟨⟨?_, ?_⟩, ?_⟩, ?_⟩ <;> (intro he; subst he; exact absurd h1 (by decide))

theorem digitsVal_append_one (xs : List Char) (d : Char) :
    digitsVal (xs ++ [d]) = digitsVal xs * 10 + digVal d := by
  simp [digitsVal, List.foldl_append]

theorem natDigsAux_shift :
    ∀ (fuel n : Nat) (acc : List Char),
      natDigsAux fuel n acc = natDigsAux fuel n [] ++ acc := by
  intro fuel
  induction fuel with
  | zero => intro n acc; simp [natDigsAux]
  | succ fuel ih =>
    intro n acc
    by_cases h : n < 10
    · simp [natDigsAux, h]
    · simp only [natDigsAux, h, if_false]
      rw [ih (n / 10) (Nat.digitChar (n % 10) :: acc),
        ih (n / 10) [Nat.digitChar (n % 10)]]
      simp

theorem digitChar_isDigit {n : Nat} (h : n < 10) : (Nat.digitChar n).isDigit = true := by
  interval_cases n <;> decide

theorem digVal_digitChar {n : Nat} (h : n < 10) : digVal (Nat.digitChar n) = n := by
  interval_cases n <;> decide

theorem natDigsAux_spec :
    ∀ (fuel n : Nat), n < fuel →
      (∀ c ∈ natDigsAux fuel n [], c.isDigit = true) ∧
      digitsVal (natDigsAux fuel n []) = n ∧
      natDigsAux fuel n [] ≠ [] := by
  intro fuel
  induction fuel with
  | zero => intro n h; omega
  | succ fuel ih =>
    intro n h
    by_cases h10 : n < 10
    · refine ⟨?_, ?_, ?_⟩ <;> simp [natDigsAux, h10, digitChar_isDigit, digitsVal,
        digVal_digitChar, digitsVal_append_one]
    · have hdiv : n / 10 < n := Nat.div_lt_self (by omega) (by omega)
      obtain ⟨ha, hb, hc⟩ := ih (n / 10) (by omega)
      have hr : natDigsAux (fuel + 1) n [] =
          natDigsAux fuel (n / 10) [] ++ [Nat.digitChar (n % 10)] := by
        simp only [natDigsAux, h10, if_false]
        exact natDigsAux_shift fuel (n / 10) [Nat.digitChar (n % 10)]
      refine ⟨?_, ?_, ?_⟩
      · intro c hcmem
        rw [hr] at hcmem
        rcases List.mem_append.mp hcmem with hmem | hmem
        · exact ha c hmem
        · simp at hmem
          subst hmem
          exact digitChar_isDigit (Nat.mod_lt n (by omega))
      · rw [hr, digitsVal_append_one, hb, digVal_digitChar (Nat.mod_lt n (by omega))]
        omega
      · rw [hr]; simp

theorem natDigsAux_head :
    ∀ (fuel n : Nat), n < fuel → 0 < n →
      ∀ d ds, natDigsAux fuel n [] = d :: ds → d ≠ '0' := by
  intro fuel
  induction fuel with
  | zero => intro n h; omega
  | succ fuel ih =>
    intro n h hpos d ds hds
    by_cases h10 : n < 10
    · simp only [natDigsAux, h10, if_true] at hds
      obtain ⟨rfl, -⟩ : d = Nat.digitChar n ∧ ds = [] := by
        constructor <;> [exact (List.cons.injEq _ _ _ _ ▸ hds).1.symm;
          exact (List.cons.injEq _ _ _ _ ▸ hds).2.symm]
      interval_cases n <;> simp_all <;> decide
    · have hdiv : n / 10 < n := Nat.div_lt_self (by omega) (by omega)
      have hr : natDigsAux (fuel + 1) n [] =
          natDigsAux fuel (n / 10) [] ++ [Nat.digitChar (n % 10)] := by
        simp only [natDigsAux, h10, if_false]
        exact natDigsAux_shift fuel (n / 10) [Nat.digitChar (n % 10)]
      rw [hr] at hds
      obtain ⟨-, -, hne⟩ := natDigsAux_spec fuel (n / 10) (by omega)
      obtain ⟨e, es, hes⟩ := List.exists_cons_of_ne_nil hne
      rw [hes] at hds
      simp only [List.cons_append, List.cons.injEq] at hds
      rw [← hds.1]
      exact ih (n / 10) (by omega) (by omega) e es hes

/-- The decimal printer for naturals produces a non-empty all-digit
string with the printed value, whose head is `'0'` only for zero. -/
theorem natChars_spec (n : Nat) :
    (∀ c ∈ natChars n, c.isDigit = true) ∧
    digitsVal (natChars n) = n ∧ natChars n ≠ [] ∧
    (0 < n → ∀ d ds, natChars n = d :: ds → d ≠ '0') := by
  obtain ⟨ha, hb, hc⟩ := natDigsAux_spec (n + 1) n (by omega)
  exact ⟨ha, hb, hc, fun hp d ds hds => natDigsAux_head (n + 1) n (by omega) hp d ds hds⟩

theorem takeWhile_all_append {p : Char → Bool} :
    ∀ (l rest : List Char), (∀ c ∈ l, p c = true) →
      (∀ c cs', rest = c :: cs' → p c = false) →
      (l ++ rest).takeWhile p = l ∧ (l ++ rest).dropWhile p = rest := by
  intro l
  induction l with
  | nil =>
    intro rest _ hr
    refine ⟨?_, ?_⟩ <;>
      (cases rest with
       | nil => simp
       | cons c cs' => simp [List.takeWhile, List.dropWhile, hr c cs' rfl])
  | cons a l ih =>
    intro rest hl hr
    have ha : p a = true := hl a (by simp)
    obtain ⟨h2, h3⟩ := ih rest (fun c hc => hl c (by simp [hc])) hr
    refine ⟨?_, ?_⟩
    · rw [List.cons_append]
      simp [List.takeWhile, ha, h2]
    · rw [List.cons_append]
      simp [List.dropWhile, ha, h3]

/-- `parseNatNum` inverts the decimal printer, consuming exactly the
printed digits when no further digit follows. -/
theorem parseNatNum_natChars (n : Nat) (rest : List Char)
    (hrest : ∀ c cs', rest = c :: cs' → c.isDigit = false) :
    parseNatNum (natChars n ++ rest) = some (n, rest) := by
  obtain ⟨ha, hb, hc, hd⟩ := natChars_spec n
  obtain ⟨htake, hdrop⟩ :=
    takeWhile_all_append (natChars n) rest (fun c hcm => ha c hcm) hrest
  unfold parseNatNum
  rw [htake, hdrop]
  obtain ⟨e, es, hes⟩ := List.exists_cons_of_ne_nil hc
  cases es with
  | nil =>
    rw [hes]
    have : digVal e = n := by
      have := hb
      rw [hes] at this
      simpa [digitsVal] using this
    simp [this]
  | cons f fs =>
    rw [hes]
    have hnz : ¬ n < 10 := by
      intro hlt
      have h1 : natChars n = [Nat.digitChar n] := by
        unfold natChars natDigsAux
        simp [hlt]
      rw [h1] at hes
      exact absurd hes.symm (by simp)
    have hepos : e ≠ '0' := by
      refine hd (by omega) e (f :: fs) hes
    simp only [hepos, if_false]
    rw [← hes, hb]

theorem intChars_natAbs_of_neg {n : Int} (h : n < 0) :
    intChars n = '-' :: natChars n.natAbs := by
  simp [intChars, h]

theorem intChars_toNat_of_nonneg {n : Int} (h : ¬ n < 0) :
    intChars n = natChars n.toNat := by
  simp [intChars, h]

/-- `parseNum` inverts the integer printer. -/
theorem parseNum_intChars (n : Int) (rest : List Char)
    (hrest : ∀ c cs', rest = c :: cs' → c.isDigit = false) :
    parseNum (intChars n ++ rest) = some (n, rest) := by
  by_cases hneg : n < 0
  · rw [intChars_natAbs_of_neg hneg, List.cons_append]
    have hp := parseNatNum_natChars n.natAbs rest hrest
    have hv : -((n.natAbs : Nat) : Int) = n := by omega
    simp [parseNum, hp, hv]
    rw [abs_of_neg hneg, neg_neg]
  · rw [intChars_toNat_of_nonneg hneg]
    have hp := parseNatNum_natChars n.toNat rest hrest
    have hv : ((n.toNat : Nat) : Int) = n := by omega
    obtain ⟨-, -, hc, -⟩ := natChars_spec n.toNat
    obtain ⟨e, es, hes⟩ := List.exists_cons_of_ne_nil hc
    have hall := (natChars_spec n.toNat).1
    have he : e.isDigit = true := hall e (by rw [hes]; simp)
    have hne : e ≠ '-' := (digit_facts he).2.2.2.2.2.2.1
    rw [hes, List.cons_append]
    rw [hes, List.cons_append] at hp
    simp [parseNum, hne, hp, hv]

theorem hexVal_digitChar {m : Nat} (h : m < 16) : hexVal (Nat.digitChar m) = some m := by
  interval_cases m <;> decide

/-- Decoding one `\u00XX` escape produced for a control character. -/
theorem parseStrAux_unicode (acc Y : List Char) (t : Nat) (h : t < 32) :
    parseStrAux acc
        ('\\' :: 'u' :: '0' :: '0' :: Nat.digitChar (t / 16) :: Nat.digitChar (t % 16) :: Y) =
      parseStrAux (Char.ofNat t :: acc) Y := by
  have hd1 : hexVal (Nat.digitChar (t / 16)) = some (t / 16) := hexVal_digitChar (by omega)
  have hd2 : hexVal (Nat.digitChar (t % 16)) = some (t % 16) := hexVal_digitChar (by omega)
  have h0 : hexVal '0' = some 0 := by decide
  have hv : Nat.isValidChar t := Or.inl (by omega)
  conv_lhs => rw [parseStrAux.eq_def]
  simp only [h0, hd1, hd2]
  simp
  have ht : t / 16 * 16 + t % 16 = t := by omega
  rw [ht, if_pos hv]

/-- The unescaper inverts the escaper on every string body. -/
theorem parseStrAux_esc :
    ∀ (cs acc rest : List Char),
      parseStrAux acc (esc cs ++ '"' :: rest) = some (String.mk (acc.reverse ++ cs), rest) := by
  intro cs
  induction cs with
  | nil =>
    intro acc rest
    show parseStrAux acc ('"' :: rest) = _
    conv_lhs => rw [parseStrAux.eq_def]
    simp
  | cons c cs ih =>
    intro acc rest
    by_cases h1 : c = '"'
    · subst h1
      have hstep : parseStrAux acc (esc ('"' :: cs) ++ '"' :: rest) =
          parseStrAux ('"' :: acc) (esc cs ++ '"' :: rest) := by
        show parseStrAux acc ('\\' :: '"' :: (esc cs ++ '"' :: rest)) = _
        conv_lhs => rw [parseStrAux.eq_def]
        simp [escCharInv]
      rw [hstep, ih]
      simp
    by_cases h2 : c = '\\'
    · subst h2
      have hstep : parseStrAux acc (esc ('\\' :: cs) ++ '"' :: rest) =
          parseStrAux ('\\' :: acc) (esc cs ++ '"' :: rest) := by
        show parseStrAux acc ('\\' :: '\\' :: (esc cs ++ '"' :: rest)) = _
        conv_lhs => rw [parseStrAux.eq_def]
        simp [escCharInv]
      rw [hstep, ih]
      simp
    by_cases h3 : c = '\n'
    · subst h3
      have hstep : parseStrAux acc (esc ('\n' :: cs) ++ '"' :: rest) =
          parseStrAux ('\n' :: acc) (esc cs ++ '"' :: rest) := by
        show parseStrAux acc ('\\' :: 'n' :: (esc cs ++ '"' :: rest)) = _
        conv_lhs => rw [parseStrAux.eq_def]
        simp [escCharInv]
      rw [hstep, ih]
      simp
    by_cases h4 : c = '\r'
    · subst h4
      have hstep : parseStrAux acc (esc ('\r' :: cs) ++ '"' :: rest) =
          parseStrAux ('\r' :: acc) (esc cs ++ '"' :: rest) := by
        show parseStrAux acc ('\\' :: 'r' :: (esc cs ++ '"' :: rest)) = _
        conv_lhs => rw [parseStrAux.eq_def]
        simp [escCharInv]
      rw [hstep, ih]
      simp
    by_cases h5 : c = '\t'
    · subst h5
      have hstep : parseStrAux acc (esc ('\t' :: cs) ++ '"' :: rest) =
          parseStrAux ('\t' :: acc) (esc cs ++ '"' :: rest) := by
        show parseStrAux acc ('\\' :: 't' :: (esc cs ++ '"' :: rest)) = _
        conv_lhs => rw [parseStrAux.eq_def]
        simp [escCharInv]
      rw [hstep, ih]
      simp
    by_cases h6 : c.toNat = 8
    · have hc : c = Char.ofNat 8 := by rw [← h6, Char.ofNat_toNat]
      subst hc
      have hstep : parseStrAux acc (esc (Char.ofNat 8 :: cs) ++ '"' :: rest) =
          parseStrAux (Char.ofNat 8 :: acc) (esc cs ++ '"' :: rest) := by
        show parseStrAux acc ('\\' :: 'b' :: (esc cs ++ '"' :: rest)) = _
        conv_lhs => rw [parseStrAux.eq_def]
        simp [escCharInv]
      rw [hstep, ih]
      simp
    by_cases h7 : c.toNat = 12
    · have hc : c = Char.ofNat 12 := by rw [← h7, Char.ofNat_toNat]
      subst hc
      have hstep : parseStrAux acc (esc (Char.ofNat 12 :: cs) ++ '"' :: rest) =
          parseStrAux (Char.ofNat 12 :: acc) (esc cs ++ '"' :: rest) := by
        show parseStrAux acc ('\\' :: 'f' :: (esc cs ++ '"' :: rest)) = _
        conv_lhs => rw [parseStrAux.eq_def]
        simp [escCharInv]
      rw [hstep, ih]
      simp
    by_cases h8 : c.toNat < 32
    · have hc2 : escapeChar c =
          ['\\', 'u', '0', '0', Nat.digitChar (c.toNat / 16), Nat.digitChar (c.toNat % 16)] := by
        unfold escapeChar
        rw [if_neg h1, if_neg h2, if_neg h3, if_neg h4, if_neg h5, if_neg h6, if_neg h7,
          if_pos h8]
      have hesc : esc (c :: cs) = escapeChar c ++ esc cs := rfl
      rw [hesc, hc2]
      simp only [List.cons_append, List.nil_append]
      rw [parseStrAux_unicode acc (esc cs ++ '"' :: rest) c.toNat h8, Char.ofNat_toNat, ih]
      simp
    · have hc2 : escapeChar c = [c] := by
        unfold escapeChar
        rw [if_neg h1, if_neg h2, if_neg h3, if_neg h4, if_neg h5, if_neg h6, if_neg h7,
          if_neg h8]
      have hesc : esc (c :: cs) = escapeChar c ++ esc cs := rfl
      rw [hesc, hc2]
      simp only [List.cons_append, List.nil_append]
      have hstep : parseStrAux acc (c :: (esc cs ++ '"' :: rest)) =
          parseStrAux (c :: acc) (esc cs ++ '"' :: rest) := by
        conv_lhs => rw [parseStrAux.eq_def]
        simp [h1, h2, h8]
      rw [hstep, ih]
      simp

/-- Parsing a printed string literal body yields the string back. -/
theorem parseStrAux_escapeStr (s : String) (rest : List Char) :
    parseStrAux [] (esc s.data ++ '"' :: rest) = some (s, rest) := by
  rw [parseStrAux_esc]
  cases s
  simp [String.toList]

/-- The printed form of every value begins with a non-whitespace
character that is none of the closing or separating tokens. -/
theorem dump_head_facts (v : PyObj) :
    ∃ c cs, dumpChars v = c :: cs ∧ isJsonWs c = false ∧
      c ≠ ']' ∧ c ≠ ',' ∧ c ≠ rbrace ∧ c ≠ ':' := by
  cases v with
  | none => exact ⟨'n', _, by rw [dumpChars], by decide, by decide, by decide, by decide, by decide⟩
  | bool b =>
    cases b with
    | true => exact ⟨'t', _, by rw [dumpChars], by decide, by decide, by decide, by decide, by decide⟩
    | false => exact ⟨'f', _, by rw [dumpChars], by decide, by decide, by decide, by decide, by decide⟩
  | int n =>
    by_cases hneg : n < 0
    · exact ⟨'-', _, by rw [dumpChars, intChars_natAbs_of_neg hneg],
        by decide, by decide, by decide, by decide, by decide⟩
    · obtain ⟨-, -, hc, -⟩ := natChars_spec n.toNat
      obtain ⟨e, es, hes⟩ := List.exists_cons_of_ne_nil hc
      have he : e.isDigit = true := (natChars_spec n.toNat).1 e (by rw [hes]; simp)
      obtain ⟨-, -, -, -, -, -, -, f8, f9, f10, f11, f12⟩ := digit_facts he
      exact ⟨e, es, by rw [dumpChars, intChars_toNat_of_nonneg hneg, hes],
        f12, f8, f9, f10, f11⟩
  | str s =>
    exact ⟨'"', _, by rw [dumpChars]; rfl, by decide, by decide, by decide, by decide, by decide⟩
  | list xs =>
    exact ⟨'[', dumpElems xs ++ [']'], by rw [dumpChars]; rw [List.cons_append],
      by decide, by decide, by decide, by decide, by decide⟩
  | dict kvs =>
    exact ⟨lbrace, dumpMembers kvs ++ [rbrace], by rw [dumpChars]; rw [List.cons_append],
      by decide, by decide, by decide, by decide, by decide⟩

/-- The rendered element list begins with the first element's characters. -/
theorem dumpElems_shape (x : PyObj) (xs : List PyObj) :
    ∃ t, dumpElems (x :: xs) = dumpChars x ++ t := by
  cases xs with
  | nil => exact ⟨[], by rw [dumpElems, List.append_nil]⟩
  | cons y ys => exact ⟨',' :: ' ' :: dumpElems (y :: ys), by rw [dumpElems]⟩

/-- The rendered member list begins with the first key's string literal. -/
theorem dumpMembers_shape (m : String × PyObj) (ms : List (String × PyObj)) :
    ∃ t, dumpMembers (m :: ms) = escapeStr m.1 ++ t := by
  obtain ⟨k, v⟩ := m
  cases ms with
  | nil => exact ⟨':' :: ' ' :: dumpChars v, by rw [dumpMembers]⟩
  | cons m' ms' => exact ⟨':' :: ' ' :: dumpChars v ++ ',' :: ' ' :: dumpMembers (m' :: ms'),
      by rw [dumpMembers]; simp⟩

theorem parseVal_ws_space (fuel : Nat) (cs : List Char) :
    parseVal fuel (' ' :: cs) = parseVal fuel cs := by
  cases fuel with
  | zero => rw [parseVal, parseVal]
  | succ f =>
    rw [parseVal, parseVal, skipWs_cons_space]

theorem parseElems_ws_space (fuel : Nat) (cs : List Char) :
    parseElems fuel (' ' :: cs) = parseElems fuel cs := by
  cases fuel with
  | zero => rw [parseElems, parseElems]
  | succ f =>
    rw [parseElems, parseElems, parseVal_ws_space]

theorem parseMembers_ws_space (fuel : Nat) (cs : List Char) :
    parseMembers fuel (' ' :: cs) = parseMembers fuel cs := by
  cases fuel with
  | zero => rw [parseMembers, parseMembers]
  | succ f =>
    rw [parseMembers, parseMembers, skipWs_cons_space]

/-- Main parser/printer inversion, by induction on the parser's fuel:
with fuel at least the printed length, parsing a printed value (with a
safe delimiter following) succeeds and consumes exactly the printed
characters; likewise for non-empty element and member lists. -/
theorem parse_dump : ∀ fuel : Nat,
    (∀ v rest, (dumpChars v).length ≤ fuel → noDigitHead rest →
      parseVal fuel (dumpChars v ++ rest) = some (v, rest)) ∧
    (∀ x xs rest, (dumpElems (x :: xs)).length < fuel →
      parseElems fuel (dumpElems (x :: xs) ++ ']' :: rest) = some (x :: xs, rest)) ∧
    (∀ m ms rest, (dumpMembers (m :: ms)).length < fuel →
      parseMembers fuel (dumpMembers (m :: ms) ++ rbrace :: rest) = some (m :: ms, rest)) := by
  intro fuel
  induction fuel with
  | zero =>
    refine ⟨?_, ?_, ?_⟩
    · intro v rest hlen _
      obtain ⟨c, cs, hc, -⟩ := dump_head_facts v
      rw [hc] at hlen
      simp at hlen
    · intro x xs rest hlen; omega
    · intro m ms rest hlen; omega
  | succ fuel ih =>
    obtain ⟨ihP, ihE, ihM⟩ := ih
    refine ⟨?_, ?_, ?_⟩
    · intro v rest hlen hrest
      cases v with
      | none =>
        rw [show dumpChars PyObj.none = ['n', 'u', 'l', 'l'] from by rw [dumpChars]]
        simp only [List.cons_append, List.nil_append]
        rw [parseVal, skipWs_cons_of_not_ws (by decide)]
        simp [show ('n' = lbrace) = False from by decide]
      | bool b =>
        cases b with
        | true =>
          rw [show dumpChars (PyObj.bool true) = ['t', 'r', 'u', 'e'] from by rw [dumpChars]]
          simp only [List.cons_append, List.nil_append]
          rw [parseVal, skipWs_cons_of_not_ws (by decide)]
          simp [show ('t' = lbrace) = False from by decide]
        | false =>
          rw [show dumpChars (PyObj.bool false) = ['f', 'a', 'l', 's', 'e'] from by
            rw [dumpChars]]
          simp only [List.cons_append, List.nil_append]
          rw [parseVal, skipWs_cons_of_not_ws (by decide)]
          simp [show ('f' = lbrace) = False from by decide]
      | int n =>
        by_cases hneg : n < 0
        · rw [show dumpChars (PyObj.int n) = '-' :: natChars n.natAbs from by
            rw [dumpChars, intChars_natAbs_of_neg hneg]]
          rw [List.cons_append, parseVal, skipWs_cons_of_not_ws (by decide)]
          have hp : parseNum ('-' :: (natChars n.natAbs ++ rest)) = some (n, rest) := by
            rw [show '-' :: (natChars n.natAbs ++ rest) = intChars n ++ rest from by
              rw [intChars_natAbs_of_neg hneg, List.cons_append]]
            exact parseNum_intChars n rest hrest
          simp [hp, show ('-' = lbrace) = False from by decide]
        · obtain ⟨e, es, hes⟩ := List.exists_cons_of_ne_nil (natChars_spec n.toNat).2.2.1
          have he : e.isDigit = true := (natChars_spec n.toNat).1 e (by rw [hes]; simp)
          obtain ⟨f1, f2, f3, f4, f5, f6, f7, -, -, -, -, f12⟩ := digit_facts he
          rw [show dumpChars (PyObj.int n) = e :: es from by
            rw [dumpChars, intChars_toNat_of_nonneg hneg, hes]]
          rw [List.cons_append, parseVal, skipWs_cons_of_not_ws f12]
          have hp : parseNum (e :: (es ++ rest)) = some (n, rest) := by
            rw [show e :: (es ++ rest) = intChars n ++ rest from by
              rw [intChars_toNat_of_nonneg hneg, hes, List.cons_append]]
            exact parseNum_intChars n rest hrest
          simp [f1, f2, f3, f4, f5, f6, he, hp]
      | str s =>
        rw [show dumpChars (PyObj.str s) = '"' :: (esc s.data ++ ['"']) from by
          rw [dumpChars]; rfl]
        rw [List.cons_append, List.append_assoc, List.singleton_append]
        rw [parseVal, skipWs_cons_of_not_ws (by decide)]
        simp [parseStrAux_escapeStr, show ('"' = lbrace) = False from by decide]
      | list xs =>
        cases xs with
        | nil =>
          rw [show dumpChars (PyObj.list []) = ['[', ']'] from by
            rw [dumpChars, dumpElems]; rfl]
          simp only [List.cons_append, List.nil_append]
          rw [parseVal, skipWs_cons_of_not_ws (by decide)]
          have hws : skipWs (']' :: rest) = ']' :: rest := skipWs_cons_of_not_ws (by decide) _
          simp [hws, show ('[' = lbrace) = False from by decide]
        | cons x xs =>
          have hd : dumpChars (PyObj.list (x :: xs)) = '[' :: (dumpElems (x :: xs) ++ [']']) := by
            rw [dumpChars, List.cons_append]
          rw [hd] at hlen ⊢
          rw [List.cons_append, List.append_assoc, List.singleton_append]
          rw [parseVal, skipWs_cons_of_not_ws (by decide)]
          obtain ⟨t, ht⟩ := dumpElems_shape x xs
          obtain ⟨c0, cs0, hc0, hws0, hbr0, -, -, -⟩ := dump_head_facts x
          have hde : dumpElems (x :: xs) ++ ']' :: rest = c0 :: (cs0 ++ (t ++ ']' :: rest)) := by
            rw [ht, hc0]
            simp
          have hws1 : skipWs (dumpElems (x :: xs) ++ ']' :: rest) =
              c0 :: (cs0 ++ (t ++ ']' :: rest)) := by
            rw [hde]
            exact skipWs_cons_of_not_ws hws0 _
          have hlen2 : (dumpElems (x :: xs)).length < fuel := by
            simp at hlen
            omega
          have hE := ihE x xs rest hlen2
          rw [hde] at hE
          simp [hws1, hbr0, hE, show ('[' = lbrace) = False from by decide]
      | dict kvs =>
        cases kvs with
        | nil =>
          rw [show dumpChars (PyObj.dict []) = [lbrace, rbrace] from by
            rw [dumpChars, dumpMembers]; rfl]
          simp only [List.cons_append, List.nil_append]
          rw [parseVal, skipWs_cons_of_not_ws (by decide)]
          have hws : skipWs (rbrace :: rest) = rbrace :: rest :=
            skipWs_cons_of_not_ws (by decide) _
          simp [hws, show (lbrace = '"') = False from by decide,
            show (lbrace = '[') = False from by decide]
        | cons m ms =>
          have hd : dumpChars (PyObj.dict (m :: ms)) =
              lbrace :: (dumpMembers (m :: ms) ++ [rbrace]) := by
            rw [dumpChars, List.cons_append]
          rw [hd] at hlen ⊢
          rw [List.cons_append, List.append_assoc, List.singleton_append]
          rw [parseVal, skipWs_cons_of_not_ws (by decide)]
          obtain ⟨t, ht⟩ := dumpMembers_shape m ms
          have hdm : dumpMembers (m :: ms) ++ rbrace :: rest =
              '"' :: (esc m.1.data ++ ('"' :: (t ++ rbrace :: rest))) := by
            rw [ht]
            show (escapeStr m.1 ++ t) ++ rbrace :: rest = _
            rw [escapeStr]
            simp [String.toList]
          have hws1 : skipWs (dumpMembers (m :: ms) ++ rbrace :: rest) =
              '"' :: (esc m.1.data ++ ('"' :: (t ++ rbrace :: rest))) := by
            rw [hdm]
            exact skipWs_cons_of_not_ws (by decide) _
          have hlen2 : (dumpMembers (m :: ms)).length < fuel := by
            simp at hlen
            omega
          have hM := ihM m ms rest hlen2
          rw [hdm] at hM
          simp [hws1, hM, show (lbrace = '"') = False from by decide,
            show (lbrace = '[') = False from by decide,
            show ('"' = rbrace) = False from by decide]
    · intro x xs rest hlen
      cases xs with
      | nil =>
        rw [show dumpElems [x] = dumpChars x from by rw [dumpElems]] at hlen ⊢
        rw [parseElems]
        have hP := ihP x (']' :: rest) (by omega)
          (fun c cs' h => by injection h with h1 h2; subst h1; decide)
        rw [hP]
        have hws : skipWs (']' :: rest) = ']' :: rest := skipWs_cons_of_not_ws (by decide) _
        simp [hws]
      | cons y ys =>
        rw [show dumpElems (x :: y :: ys) = dumpChars x ++ ',' :: ' ' :: dumpElems (y :: ys)
          from by rw [dumpElems]] at hlen ⊢
        have hl2 := hlen
        simp only [List.length_append, List.length_cons] at hl2
        rw [List.append_assoc, List.cons_append, List.cons_append, parseElems]
        have hP := ihP x (',' :: ' ' :: (dumpElems (y :: ys) ++ ']' :: rest)) (by omega)
          (fun c cs' h => by injection h with h1 h2; subst h1; decide)
        rw [hP]
        have hws : skipWs (',' :: ' ' :: (dumpElems (y :: ys) ++ ']' :: rest)) =
            ',' :: ' ' :: (dumpElems (y :: ys) ++ ']' :: rest) :=
          skipWs_cons_of_not_ws (by decide) _
        have hE := ihE y ys rest (by omega)
        simp [hws, parseElems_ws_space, hE]
    · intro m ms rest hlen
      obtain ⟨k, v⟩ := m
      cases ms with
      | nil =>
        rw [show dumpMembers [(k, v)] = escapeStr k ++ ':' :: ' ' :: dumpChars v from by
          rw [dumpMembers]] at hlen ⊢
        have hl2 := hlen
        simp only [escapeStr, List.length_append, List.length_cons] at hl2
        rw [escapeStr]
        simp only [List.cons_append, List.append_assoc, List.singleton_append, List.nil_append]
        rw [parseMembers, skipWs_cons_of_not_ws (by decide)]
        have hk := parseStrAux_escapeStr k (':' :: ' ' :: (dumpChars v ++ rbrace :: rest))
        have hP := ihP v (rbrace :: rest) (by omega)
          (fun c cs' h => by injection h with h1 h2; subst h1; decide)
        have hws2 : skipWs (':' :: ' ' :: (dumpChars v ++ rbrace :: rest)) =
            ':' :: ' ' :: (dumpChars v ++ rbrace :: rest) :=
          skipWs_cons_of_not_ws (by decide) _
        have hws3 : skipWs (rbrace :: rest) = rbrace :: rest :=
          skipWs_cons_of_not_ws (by decide) _
        simp [hk, hws2, parseVal_ws_space, hP, hws3,
          show (rbrace = ',') = False from by decide]
      | cons m' ms' =>
        rw [show dumpMembers ((k, v) :: m' :: ms') =
            escapeStr k ++ ':' :: ' ' :: dumpChars v ++ ',' :: ' ' :: dumpMembers (m' :: ms')
          from by rw [dumpMembers]] at hlen ⊢
        have hl2 := hlen
        simp only [escapeStr, List.length_append, List.length_cons] at hl2
        rw [escapeStr]
        simp only [List.cons_append, List.append_assoc, List.singleton_append, List.nil_append]
        rw [parseMembers, skipWs_cons_of_not_ws (by decide)]
        have hk := parseStrAux_escapeStr k
          (':' :: ' ' :: (dumpChars v ++ ',' :: ' ' :: (dumpMembers (m' :: ms') ++ rbrace :: rest)))
        have hP := ihP v (',' :: ' ' :: (dumpMembers (m' :: ms') ++ rbrace :: rest)) (by omega)
          (fun c cs' h => by injection h with h1 h2; subst h1; decide)
        have hws2 : skipWs
            (':' :: ' ' :: (dumpChars v ++ ',' :: ' ' :: (dumpMembers (m' :: ms') ++ rbrace :: rest))) =
            ':' :: ' ' :: (dumpChars v ++ ',' :: ' ' :: (dumpMembers (m' :: ms') ++ rbrace :: rest)) :=
          skipWs_cons_of_not_ws (by decide) _
        have hws4 : skipWs (',' :: ' ' :: (dumpMembers (m' :: ms') ++ rbrace :: rest)) =
            ',' :: ' ' :: (dumpMembers (m' :: ms') ++ rbrace :: rest) :=
          skipWs_cons_of_not_ws (by decide) _
        have hM := ihM m' ms' rest (by omega)
        simp [hk, hws2, parseVal_ws_space, hP, hws4, parseMembers_ws_space, hM]

/-- Round trip of the `json` model: parsing a printed value returns the
value, for every value of the modelled AST. -/
theorem pyloads_pydumps (v : PyObj) : pyloads (pydumps v) = some v := by
  unfold pyloads pydumps
  have h := (parse_dump ((dumpChars v).length + 1)).1 v [] (by omega)
    (fun c cs' hcs => by cases hcs)
  rw [List.append_nil] at h
  have ht : (String.mk (dumpChars v)).toList = dumpChars v := rfl
  have hl : (String.mk (dumpChars v)).length = (dumpChars v).length := rfl
  rw [ht, hl, h]
  simp [skipWs]

/-! ### Bounds on the individual bonuses -/

theorem ageBonus_bounds (y : Nat) (s : String) :
    0 ≤ ageBonus y s ∧ ageBonus y s ≤ 20 := by
  unfold ageBonus
  split
  · exact ⟨le_refl 0, by norm_num⟩
  · split
    · constructor <;> (dsimp only; split <;> [skip; split <;> [skip; split]] <;> norm_num)
    · exact ⟨le_refl 0, by norm_num⟩

theorem sizeBonus15_bounds (s : String) :
    0 ≤ sizeBonus15 s ∧ sizeBonus15 s ≤ 15 := by
  unfold sizeBonus15
  split
  · exact ⟨le_refl 0, by norm_num⟩
  · constructor <;> (dsimp only; split <;> [skip; split <;> [skip; split]] <;> norm_num)

theorem categoryBonus5_bounds (s : String) :
    0 ≤ categoryBonus5 s ∧ categoryBonus5 s ≤ 5 := by
  unfold categoryBonus5
  split
  · exact ⟨le_refl 0, by norm_num⟩
  · constructor <;> (dsimp only; split <;> norm_num)

theorem keywordCountBonus_bounds (d c : String) :
    0 ≤ keywordCountBonus d c ∧ keywordCountBonus d c ≤ 15 := by
  unfold keywordCountBonus
  exact ⟨le_min (by positivity) (by norm_num), min_le_right _ _⟩

theorem aiSizeBonus_bounds (s : String) :
    0 ≤ aiSizeBonus s ∧ aiSizeBonus s ≤ 20 := by
  unfold aiSizeBonus
  split
  · exact ⟨le_refl 0, by norm_num⟩
  · constructor <;> (dsimp only; split <;> [skip; split <;> [skip; split]] <;> norm_num)

theorem aiYearBonus_bounds (y : Nat) (s : String) :
    0 ≤ aiYearBonus y s ∧ aiYearBonus y s ≤ 20 := by
  unfold aiYearBonus
  split
  · exact ⟨le_refl 0, by norm_num⟩
  · split
    · constructor <;> (dsimp only; split <;> [skip; split <;> [skip; split]] <;> norm_num)
    · constructor <;> (dsimp only; split <;> norm_num)

theorem aiCategoryBonus_bounds (s : String) :
    0 ≤ aiCategoryBonus s ∧ aiCategoryBonus s ≤ 15 := by
  unfold aiCategoryBonus
  split
  · exact ⟨le_refl 0, by norm_num⟩
  · constructor <;> (dsimp only; split <;> norm_num)

theorem aiAnalysisBonus_bounds (s : String) :
    0 ≤ aiAnalysisBonus s ∧ aiAnalysisBonus s ≤ 15 := by
  unfold aiAnalysisBonus
  split
  · exact ⟨le_refl 0, by norm_num⟩
  · exact ⟨le_min (by positivity) (by norm_num), min_le_right _ _⟩

theorem aiContactBonus_bounds (s : String) :
    0 ≤ aiContactBonus s ∧ aiContactBonus s ≤ 10 := by
  unfold aiContactBonus
  split
  · exact ⟨le_refl 0, by norm_num⟩
  · constructor <;> (dsimp only; split <;> norm_num)

/-- The model scorer's raw sum lies between 50 and 110 before capping. -/
theorem company_score_bounds (y : Nat) (c : Company) :
    50 ≤ Company.calculate_lead_score y c ∧ Company.calculate_lead_score y c ≤ 100 := by
  unfold Company.calculate_lead_score
  obtain ⟨a1, a2⟩ := ageBonus_bounds y c.year_built
  obtain ⟨b1, b2⟩ := sizeBonus15_bounds c.building_size
  obtain ⟨c1, c2⟩ := categoryBonus5_bounds c.category
  constructor
  · refine le_min ?_ (by norm_num)
    have hw : (0:Int) ≤ (if c.website = "" then 0 else 10) := by split <;> norm_num
    have hp : (0:Int) ≤ (if c.contact_person = "" && c.contact_title = "" then 0 else 10) := by
      split <;> norm_num
    have he : (0:Int) ≤ (if c.email = "" && c.phone = "" then 0 else 5) := by split <;> norm_num
    have hd : (0:Int) ≤ (if c.description = "" then 0 else 5) := by split <;> norm_num
    omega
  · exact min_le_right _ _

theorem base_score_bounds (y : Nat) (c : Company) :
    50 ≤ BaseScraper.calculate_lead_score y c ∧ BaseScraper.calculate_lead_score y c ≤ 100 := by
  unfold BaseScraper.calculate_lead_score
  obtain ⟨a1, a2⟩ := ageBonus_bounds y c.year_built
  obtain ⟨b1, b2⟩ := sizeBonus15_bounds c.building_size
  obtain ⟨k1, k2⟩ := keywordCountBonus_bounds c.description c.category
  constructor
  · refine le_min ?_ (by norm_num)
    have hw : (0:Int) ≤ (if c.website = "" then 0 else 10) := by split <;> norm_num
    have hp : (0:Int) ≤ (if c.contact_person = "" && c.contact_title = "" then 0 else 10) := by
      split <;> norm_num
    have he : (0:Int) ≤ (if c.email = "" && c.phone = "" then 0 else 5) := by split <;> norm_num
    have hd : (0:Int) ≤ (if c.description = "" then 0 else 5) := by split <;> norm_num
    omega
  · exact min_le_right _ _

theorem ai_score_bounds (y : Nat) (c : Company) :
    50 ≤ AILeadFinder.calculate_lead_score y c ∧ AILeadFinder.calculate_lead_score y c ≤ 100 := by
  unfold AILeadFinder.calculate_lead_score
  obtain ⟨a1, a2⟩ := aiSizeBonus_bounds c.building_size
  obtain ⟨b1, b2⟩ := aiYearBonus_bounds y c.year_built
  obtain ⟨c1, c2⟩ := aiCategoryBonus_bounds c.category
  obtain ⟨d1, d2⟩ := aiAnalysisBonus_bounds c.ai_analysis
  obtain ⟨e1, e2⟩ := aiContactBonus_bounds c.contact_title
  exact ⟨le_min (by omega) (by norm_num), min_le_right _ _⟩

/-! ### Claims about the scorers -/

/-- C1: for every business record (any combination of present or absent
fields) and every current year, each of the three lead-scoring functions
— the model scorer, the base web-scrape scorer and the AI-lead scorer —
returns an integer score `s` with `0 ≤ s ≤ 100`. -/
theorem scorers_in_range (y : Nat) (c : Company) :
    (0 ≤ Company.calculate_lead_score y c ∧ Company.calculate_lead_score y c ≤ 100) ∧
    (0 ≤ BaseScraper.calculate_lead_score y c ∧ BaseScraper.calculate_lead_score y c ≤ 100) ∧
    (0 ≤ AILeadFinder.calculate_lead_score y c ∧ AILeadFinder.calculate_lead_score y c ≤ 100) := by
  obtain ⟨h1, h2⟩ := company_score_bounds y c
  obtain ⟨h3, h4⟩ := base_score_bounds y c
  obtain ⟨h5, h6⟩ := ai_score_bounds y c
  exact ⟨⟨by omega, h2⟩, ⟨by omega, h4⟩, ⟨by omega, h6⟩⟩

/-- C10: every scoring variant starts at base 50 and only adds
non-negative increments before capping at 100, so every record scores at
least 50 under each of the three scorers — a strictly tighter lower
bound than 0. -/
theorem scorers_at_least_base (y : Nat) (c : Company) :
    50 ≤ Company.calculate_lead_score y c ∧
    50 ≤ BaseScraper.calculate_lead_score y c ∧
    50 ≤ AILeadFinder.calculate_lead_score y c :=
  ⟨(company_score_bounds y c).1, (base_score_bounds y c).1, (ai_score_bounds y c).1⟩

/-- C9: a record with only `name`, `city` and `state` populated and
every optional field empty scores exactly the base value 50 under the
model lead-scoring function, whatever the current year. -/
theorem empty_record_scores_base (y : Nat) (n ci st : String) :
    Company.calculate_lead_score y { name := n, city := ci, state := st } = 50 := rfl

/-- C6 counterexample: the score is not a pure function of the record
alone — `calculate_lead_score` reads the clock (`datetime.now().year`),
and evaluating the very same record at current year 2000 and at current
year 2030 yields 50 and 70 respectively, because the building age
crosses the 30-year threshold. -/
theorem score_depends_on_clock :
    Company.calculate_lead_score 2000
        { name := "A", city := "B", state := "C", year_built := "1995" } = 50 ∧
    Company.calculate_lead_score 2030
        { name := "A", city := "B", state := "C", year_built := "1995" } = 70 ∧
    Company.calculate_lead_score 2000
        { name := "A", city := "B", state := "C", year_built := "1995" } ≠
      Company.calculate_lead_score 2030
        { name := "A", city := "B", state := "C", year_built := "1995" } := by
  refine ⟨by decide, by decide, by decide⟩

/-- C6 (amended): at a fixed evaluation time — i.e. for one value of the
current year read from the clock — the model lead scorer is
deterministic: identical records yield identical scores, with no other
input influencing the result. -/
theorem score_deterministic_at_fixed_year (y : Nat) (c₁ c₂ : Company) (h : c₁ = c₂) :
    Company.calculate_lead_score y c₁ = Company.calculate_lead_score y c₂ := by
  rw [h]

/-- Witness for `score_deterministic_at_fixed_year` at a concrete record. -/
theorem score_deterministic_at_fixed_year_witness :
    Company.calculate_lead_score 2024 { name := "X", city := "Y", state := "Z" } =
      Company.calculate_lead_score 2024 { name := "X", city := "Y", state := "Z" } :=
  score_deterministic_at_fixed_year 2024
    { name := "X", city := "Y", state := "Z" } { name := "X", city := "Y", state := "Z" } rfl

/-! ### Claims about the store and the cache -/

/-- C2: for every store state and every record dict, if the code's
lookup of an existing row by exact (name, city) match finds a row `r`
(the first match), then `insert_company` returns that row's identity and
leaves the store entirely unchanged — no second row is created and no
field of any row is modified by the new record's other fields. -/
theorem insert_company_existing (s : CompanyStore) (data : List (String × RawVal))
    (r : CompanyRow) (h : s.rows.find? (matchesNameCity data) = some r) :
    Database.insert_company s data = (some r.id, s) := by
  unfold Database.insert_company
  rw [h]

/-- Witness for `insert_company_existing`: a store holding one Acme/Dayton
row; re-inserting Acme/Dayton with a different phone field returns id 1
and the identical store. -/
theorem insert_company_existing_witness :
    Database.insert_company
        ⟨[⟨1, [("name", RawVal.vstr "Acme"), ("city", RawVal.vstr "Dayton")]⟩], 2⟩
        [("name", RawVal.vstr "Acme"), ("city", RawVal.vstr "Dayton"),
         ("phone", RawVal.vstr "555")] =
      (some 1, ⟨[⟨1, [("name", RawVal.vstr "Acme"), ("city", RawVal.vstr "Dayton")]⟩], 2⟩) :=
  insert_company_existing _ _
    ⟨1, [("name", RawVal.vstr "Acme"), ("city", RawVal.vstr "Dayton")]⟩ (by decide)

/-- C5: when an external enrichment supplies a score `e` for a record
with heuristic score `h` (both scores in [0, 100], where Python's float
division by 2 is exact), the stored score becomes the integer mean
`(h + e) / 2` rounded down; with no extracted score the record's score
is untouched. -/
theorem blended_score_is_integer_mean (h e : Int) (hh : 0 ≤ h) (hh2 : h ≤ 100)
    (he : 0 ≤ e) (he2 : e ≤ 100) :
    AIAnalyzer.apply_ai_score (some h) (some e) = some ((h + e) / 2) ∧
    AIAnalyzer.apply_ai_score (some h) Option.none = some h := by
  constructor
  · unfold AIAnalyzer.apply_ai_score
    simp only [Option.getD_some]
    rw [Int.tdiv_eq_ediv (by omega) (by omega)]
  · rfl

/-- Witness for `blended_score_is_integer_mean`: heuristic 60 blended
with external 80 stores exactly 70. -/
theorem blended_score_witness :
    AIAnalyzer.apply_ai_score (some 60) (some 80) = some 70 := by
  rw [(blended_score_is_integer_mean 60 80 (by decide) (by decide) (by decide) (by decide)).1]
  rfl

/-- C8 counterexample: `cache_clear` with the *empty-string* key falls
into the falsy `if key:` branch and deletes the whole table — here it
removes the row stored under `"a"`, a different key, refuting "removes
only the entry for k". -/
theorem cache_clear_empty_key_counterexample :
    (Database.cache_clear ⟨true, 86400, [⟨"a", "x", 0⟩]⟩ (some "")).2.rows = [] ∧
    ("a" : String) ≠ "" ∧
    (Database.cache_clear ⟨true, 86400, [⟨"a", "x", 0⟩]⟩ (some "")).1 = true := by
  refine ⟨rfl, by decide, rfl⟩

/-- C8 (amended): with caching enabled, `cache_clear k` for a
*non-empty* key `k` removes exactly the rows keyed `k` — every row with
another key survives unchanged and nothing else appears — while
`cache_clear` with no key, or with the empty string (which Python's
truthiness test conflates with no key), removes all entries. -/
theorem cache_clear_frame (db : CacheDB) (k : String) (hk : k ≠ "")
    (henabled : db.enabled = true) :
    ((Database.cache_clear db (some k)).2.rows = db.rows.filter (fun r => !(r.key == k)) ∧
      (∀ r ∈ db.rows, r.key ≠ k → r ∈ (Database.cache_clear db (some k)).2.rows) ∧
      (∀ r ∈ (Database.cache_clear db (some k)).2.rows, r ∈ db.rows ∧ r.key ≠ k)) ∧
    (Database.cache_clear db Option.none).2.rows = [] ∧
    (Database.cache_clear db (some "")).2.rows = [] := by
  have hmain : (Database.cache_clear db (some k)).2.rows =
      db.rows.filter (fun r => !(r.key == k)) := by
    unfold Database.cache_clear
    rw [henabled]
    simp [hk]
  refine ⟨⟨hmain, ?_, ?_⟩, ?_, ?_⟩
  · intro r hr hne
    rw [hmain]
    simp [List.mem_filter, hr, hne]
  · intro r hr
    rw [hmain] at hr
    simp only [List.mem_filter, Bool.not_eq_true', beq_eq_false_iff_ne] at hr
    exact hr
  · unfold Database.cache_clear
    rw [henabled]
    simp
  · unfold Database.cache_clear
    rw [henabled]
    simp

/-- Witness for `cache_clear_frame` on a two-row cache: clearing `"a"`
keeps the `"b"` row only. -/
theorem cache_clear_frame_witness :
    (Database.cache_clear (⟨true, 86400, [⟨"a", "x", 0⟩, ⟨"b", "y", 0⟩]⟩ : CacheDB)
        (some "a")).2.rows = [⟨"b", "y", 0⟩] := by
  have h := cache_clear_frame (⟨true, 86400, [⟨"a", "x", 0⟩, ⟨"b", "y", 0⟩]⟩ : CacheDB) "a"
    (by decide) rfl
  rw [h.1.1]
  rfl

/-- C3 counterexample: `cache_set` stores the *string* `"123"` raw, and
`cache_get` runs `json.loads` on it, returning the integer 123 — not the
string that was set — even though the set succeeded and the entry is
fresh.  The round trip fails for strings that are themselves valid JSON
documents. -/
theorem cache_roundtrip_counterexample :
    (Database.cache_set ⟨true, 86400, []⟩ "k" (PyObj.str "123") 0).1 = true ∧
    (0 : Nat) < 0 + 86400 ∧
    Database.cache_get (Database.cache_set ⟨true, 86400, []⟩ "k" (PyObj.str "123") 0).2 "k" 0 =
      PyObj.int 123 ∧
    PyObj.int 123 ≠ PyObj.str "123" := by
  refine ⟨rfl, by decide, by rfl, fun h => PyObj.noConfusion h⟩

/-- C3 (amended): if `cache_set db k v t₀` succeeds and the entry is
read back before expiry, `cache_get` returns exactly `v` — provided `v`
is a structured (non-string) value, or a string that is not itself a
valid JSON document; a JSON-parsable string comes back as its parsed
value instead. -/
theorem cache_roundtrip (db : CacheDB) (k : String) (v : PyObj) (t0 t1 : Nat)
    (hset : (Database.cache_set db k v t0).1 = true)
    (hfresh : t1 < t0 + db.expiry)
    (hstr : ∀ s, v = PyObj.str s → pyloads s = Option.none) :
    Database.cache_get (Database.cache_set db k v t0).2 k t1 = v := by
  obtain ⟨en, exp, rows⟩ := db
  have hen : en = true := by
    cases en
    · exact absurd hset (by simp [Database.cache_set])
    · rfl
  subst hen
  have hfr : t1 < t0 + exp := hfresh
  have hfind : ∀ raw : String,
      (rows.filter (fun r => !(r.key == k)) ++ [(⟨k, raw, t0⟩ : CacheRow)]).find?
        (fun r => r.key == k && decide (t1 < r.created_at + exp)) =
      some (⟨k, raw, t0⟩ : CacheRow) := by
    intro raw
    rw [List.find?_append]
    have h1 : (rows.filter (fun r => !(r.key == k))).find?
        (fun r => r.key == k && decide (t1 < r.created_at + exp)) = Option.none := by
      rw [List.find?_eq_none]
      intro x hx
      simp only [List.mem_filter, Bool.not_eq_true', beq_eq_false_iff_ne] at hx
      simp [hx.2]
    rw [h1]
    simp [hfr]
  have hget : ∀ raw : String,
      Database.cache_get ⟨true, exp, rows.filter (fun r => !(r.key == k)) ++
          [(⟨k, raw, t0⟩ : CacheRow)]⟩ k t1 = deserializeValue raw := by
    intro raw
    unfold Database.cache_get
    simp only []
    rw [hfind raw]
    simp
  cases v with
  | str s =>
    have hl : pyloads s = Option.none := hstr s rfl
    have h2 : (Database.cache_set ⟨true, exp, rows⟩ k (PyObj.str s) t0).2 =
        ⟨true, exp, rows.filter (fun r => !(r.key == k)) ++ [(⟨k, s, t0⟩ : CacheRow)]⟩ := by
      simp [Database.cache_set]
    rw [h2, hget s]
    unfold deserializeValue
    rw [hl]
  | none =>
    have h2 : (Database.cache_set ⟨true, exp, rows⟩ k PyObj.none t0).2 =
        ⟨true, exp, rows.filter (fun r => !(r.key == k)) ++
          [(⟨k, pydumps PyObj.none, t0⟩ : CacheRow)]⟩ := by
      simp [Database.cache_set]
    rw [h2, hget _]
    unfold deserializeValue
    rw [pyloads_pydumps]
  | bool b =>
    have h2 : (Database.cache_set ⟨true, exp, rows⟩ k (PyObj.bool b) t0).2 =
        ⟨true, exp, rows.filter (fun r => !(r.key == k)) ++
          [(⟨k, pydumps (PyObj.bool b), t0⟩ : CacheRow)]⟩ := by
      simp [Database.cache_set]
    rw [h2, hget _]
    unfold deserializeValue
    rw [pyloads_pydumps]
  | int n =>
    have h2 : (Database.cache_set ⟨true, exp, rows⟩ k (PyObj.int n) t0).2 =
        ⟨true, exp, rows.filter (fun r => !(r.key == k)) ++
          [(⟨k, pydumps (PyObj.int n), t0⟩ : CacheRow)]⟩ := by
      simp [Database.cache_set]
    rw [h2, hget _]
    unfold deserializeValue
    rw [pyloads_pydumps]
  | list xs =>
    have h2 : (Database.cache_set ⟨true, exp, rows⟩ k (PyObj.list xs) t0).2 =
        ⟨true, exp, rows.filter (fun r => !(r.key == k)) ++
          [(⟨k, pydumps (PyObj.list xs), t0⟩ : CacheRow)]⟩ := by
      simp [Database.cache_set]
    rw [h2, hget _]
    unfold deserializeValue
    rw [pyloads_pydumps]
  | dict kvs =>
    have h2 : (Database.cache_set ⟨true, exp, rows⟩ k (PyObj.dict kvs) t0).2 =
        ⟨true, exp, rows.filter (fun r => !(r.key == k)) ++
          [(⟨k, pydumps (PyObj.dict kvs), t0⟩ : CacheRow)]⟩ := by
      simp [Database.cache_set]
    rw [h2, hget _]
    unfold deserializeValue
    rw [pyloads_pydumps]

/-- Witness for `cache_roundtrip`: the string `"hello"` is not valid
JSON, so it round-trips exactly through a fresh cache entry. -/
theorem cache_roundtrip_witness :
    Database.cache_get
        (Database.cache_set ⟨true, 86400, []⟩ "k" (PyObj.str "hello") 0).2 "k" 1 =
      PyObj.str "hello" :=
  cache_roundtrip ⟨true, 86400, []⟩ "k" (PyObj.str "hello") 0 1 rfl (by decide)
    (fun s hs => by
      injection hs with h
      subst h
      rfl)

/-- With unique keys (the PRIMARY KEY invariant of the cache table), the
single SQL query of `cache_get` — key match *and* freshness — finds the
key's row exactly when that row is fresh. -/
theorem find?_key_fresh (k : String) (now exp : Nat) :
    ∀ (rows : List CacheRow) (r : CacheRow),
      rows.find? (fun q => q.key == k) = some r →
      (now < r.created_at + exp →
        rows.find? (fun q => q.key == k && decide (now < q.created_at + exp)) = some r) ∧
      ((rows.map CacheRow.key).Nodup → ¬ now < r.created_at + exp →
        rows.find? (fun q => q.key == k && decide (now < q.created_at + exp)) =
          Option.none) := by
  intro rows
  induction rows with
  | nil => intro r h; simp at h
  | cons a rows ih =>
    intro r h
    by_cases hk : a.key = k
    · have hpos : (a.key == k) = true := by simp [hk]
      rw [List.find?_cons_of_pos _ (by simp [hk])] at h
      injection h with h
      subst h
      constructor
      · intro hfresh
        exact List.find?_cons_of_pos _ (by simp [hk, hfresh])
      · intro hnd hstale
        rw [List.find?_cons_of_neg _ (by simp [hstale])]
        rw [List.find?_eq_none]
        intro x hx
        simp only [List.map_cons, List.nodup_cons, List.mem_map] at hnd
        have hxk : x.key ≠ k := by
          intro he
          exact hnd.1 ⟨x, hx, by rw [he, hk]⟩
        simp [hxk]
    · rw [List.find?_cons_of_neg _ (by simp [hk])] at h
      obtain ⟨ih1, ih2⟩ := ih r h
      constructor
      · intro hfresh
        rw [List.find?_cons_of_neg _ (by simp [hk])]
        exact ih1 hfresh
      · intro hnd hstale
        rw [List.find?_cons_of_neg _ (by simp [hk])]
        exact ih2 (by simp only [List.map_cons, List.nodup_cons] at hnd; exact hnd.2) hstale

/-- C4: `cache_get` returns `None` for a key with no cache row (never
set), and — under the PRIMARY KEY uniqueness of cache keys — when the
key's row exists, the read is a hit (returning the row's deserialized
value) precisely when `now < created_at + TTL`, and returns `None` when
the row is older, even though the row still exists. -/
theorem cache_get_miss_and_expiry (db : CacheDB) (k : String) (now : Nat) :
    ((∀ r ∈ db.rows, r.key ≠ k) → Database.cache_get db k now = PyObj.none) ∧
    (db.enabled = true → (db.rows.map CacheRow.key).Nodup →
      ∀ r, db.rows.find? (fun q => q.key == k) = some r →
        (now < r.created_at + db.expiry →
          Database.cache_get db k now = deserializeValue r.value) ∧
        (¬ now < r.created_at + db.expiry →
          Database.cache_get db k now = PyObj.none)) := by
  obtain ⟨en, exp, rows⟩ := db
  constructor
  · intro habsent
    cases en with
    | false => rfl
    | true =>
      unfold Database.cache_get
      simp only []
      have hnone : rows.find? (fun r => r.key == k && decide (now < r.created_at + exp)) =
          Option.none := by
        rw [List.find?_eq_none]
        intro x hx
        simp [habsent x hx]
      rw [hnone]
      simp
  · intro hen hnd r hfound
    subst hen
    obtain ⟨h1, h2⟩ := find?_key_fresh k now exp rows r hfound
    constructor
    · intro hfresh
      unfold Database.cache_get
      simp only []
      rw [h1 hfresh]
      simp
    · intro hstale
      unfold Database.cache_get
      simp only []
      rw [h2 hnd hstale]
      simp

/-- Witness for `cache_get_miss_and_expiry` on a one-row cache with TTL
10: the key `"x"` was never set and reads `None`; the key `"k"` hits at
time 5 and reads `None` at time 10 although its row still exists. -/
theorem cache_get_miss_and_expiry_witness :
    Database.cache_get (⟨true, 10, [⟨"k", "v", 0⟩]⟩ : CacheDB) "x" 5 = PyObj.none ∧
    Database.cache_get (⟨true, 10, [⟨"k", "v", 0⟩]⟩ : CacheDB) "k" 5 = deserializeValue "v" ∧
    Database.cache_get (⟨true, 10, [⟨"k", "v", 0⟩]⟩ : CacheDB) "k" 10 = PyObj.none := by
  refine ⟨(cache_get_miss_and_expiry _ "x" 5).1 ?_, ?_, ?_⟩
  · intro r hr
    simp only [List.mem_singleton] at hr
    subst hr
    decide
  · exact ((cache_get_miss_and_expiry (⟨true, 10, [⟨"k", "v", 0⟩]⟩ : CacheDB) "k" 5).2 rfl
      (by decide) ⟨"k", "v", 0⟩ (by decide)).1 (by decide)
  · exact ((cache_get_miss_and_expiry (⟨true, 10, [⟨"k", "v", 0⟩]⟩ : CacheDB) "k" 10).2 rfl
      (by decide) ⟨"k", "v", 0⟩ (by decide)).2 (by decide)

/-! ### Claims about normalization (`Company.from_dict`) -/

theorem lookup_setKey_ne (d : List (String × RawVal)) (k k' : String) (v : RawVal)
    (h : k' ≠ k) : (setKey d k v).lookup k' = d.lookup k' := by
  induction d with
  | nil => rfl
  | cons a d ih =>
    obtain ⟨ak, av⟩ := a
    have hcons : setKey ((ak, av) :: d) k v =
        (if ak = k then (k, v) else (ak, av)) :: setKey d k v := by
      simp [setKey]
    rw [hcons]
    by_cases hak : ak = k
    · rw [if_pos hak]
      subst hak
      have hke : (k' == ak) = false := by simp [h]
      simp only [List.lookup, hke]
      exact ih
    · rw [if_neg hak]
      simp only [List.lookup]
      cases hka : k' == ak
      · exact ih
      · rfl

theorem lookup_setKey_self (d : List (String × RawVal)) (k : String) (v : RawVal)
    (h : (d.lookup k).isSome = true) : (setKey d k v).lookup k = some v := by
  induction d with
  | nil => simp [List.lookup] at h
  | cons a d ih =>
    obtain ⟨ak, av⟩ := a
    have hcons : setKey ((ak, av) :: d) k v =
        (if ak = k then (k, v) else (ak, av)) :: setKey d k v := by
      simp [setKey]
    rw [hcons]
    by_cases hak : ak = k
    · rw [if_pos hak]
      subst hak
      simp [List.lookup]
    · rw [if_neg hak]
      have hka : (k == ak) = false := by simp [Ne.symm hak]
      simp only [List.lookup, hka]
      apply ih
      simpa only [List.lookup, hka] using h

theorem lookup_coerce_ne (d : List (String × RawVal)) (key k' : String)
    (f : String → RawVal) (h : k' ≠ key) :
    (coerceStrField d key f).lookup k' = d.lookup k' := by
  unfold coerceStrField
  rcases hl : d.lookup key with - | val
  · rfl
  · cases val with
    | vstr s => exact lookup_setKey_ne d key k' (f s) h
    | vnone => rfl
    | vint n => rfl
    | vdt t => rfl

theorem lookup_coerce_str (d : List (String × RawVal)) (key : String)
    (f : String → RawVal) (s : String) (h : d.lookup key = some (RawVal.vstr s)) :
    (coerceStrField d key f).lookup key = some (f s) := by
  unfold coerceStrField
  rw [h]
  exact lookup_setKey_self d key (f s) (by rw [h]; rfl)

theorem lookup_coerce_isSome (d : List (String × RawVal)) (key k' : String)
    (f : String → RawVal) (h : (d.lookup k').isSome = true) :
    ((coerceStrField d key f).lookup k').isSome = true := by
  by_cases hk : k' = key
  · subst hk
    unfold coerceStrField
    rcases hl : d.lookup k' with - | val
    · rw [hl] at h; simp at h
    · cases val with
      | vstr s => rw [lookup_setKey_self d k' (f s) (by rw [hl]; rfl)]; rfl
      | vnone => rw [hl]; rfl
      | vint n => rw [hl]; rfl
      | vdt t => rw [hl]; rfl
  · rw [lookup_coerce_ne d key k' f hk]
    exact h

theorem lookup_filter_keys (d : List (String × RawVal)) (p : String → Bool) (k : String)
    (hp : p k = true) : (d.filter (fun kv => p kv.1)).lookup k = d.lookup k := by
  induction d with
  | nil => rfl
  | cons a d ih =>
    obtain ⟨ak, av⟩ := a
    by_cases hpa : p ak = true
    · rw [show List.filter (fun kv => p kv.1) ((ak, av) :: d) =
        (ak, av) :: List.filter (fun kv => p kv.1) d by simp [List.filter, hpa]]
      simp only [List.lookup]
      cases k == ak
      · exact ih
      · rfl
    · rw [show List.filter (fun kv => p kv.1) ((ak, av) :: d) =
        List.filter (fun kv => p kv.1) d by simp [List.filter_cons, hpa]]
      have hka : (k == ak) = false := by
        rcases hbe : k == ak
        · rfl
        · have : k = ak := by simpa using hbe
          subst this
          exact absurd hp hpa
      simp only [List.lookup, hka]
      exact ih

theorem lookup_append_left (l1 l2 : List (String × RawVal)) (k : String)
    (h : (l1.lookup k).isSome = true) : (l1 ++ l2).lookup k = l1.lookup k := by
  induction l1 with
  | nil => simp [List.lookup] at h
  | cons a l1 ih =>
    obtain ⟨ak, av⟩ := a
    simp only [List.cons_append, List.lookup]
    cases hka : k == ak
    · rw [show List.lookup k ((ak, av) :: l1) = List.lookup k l1 by simp [List.lookup, hka]] at h
      exact ih h
    · rfl

theorem companyDefaults_keys (now : Nat) :
    ∀ kv ∈ companyDefaults now, kv.1 ∈ validFields := by
  intro kv h
  fin_cases h <;> simp [validFields]

/-- C7 counterexample: `from_dict` applied to the empty mapping is *not*
total — `cls(**filtered)` is missing the required `name`, `city` and
`state` arguments, and Python raises `TypeError` (modelled as `none`). -/
theorem from_dict_raises_on_empty :
    Company.from_dict (fun _ => Option.none) 0 [] = Option.none := rfl

/-- C7 (amended): whenever the input mapping supplies the three required
keys `name`, `city`, `state`, normalization succeeds (never raises);
arbitrary extra keys are dropped (every key of the result is a dataclass
field), a malformed `lead_score` string is replaced by the default 50,
and a malformed `scraped_at` string is replaced by the current time.
Without the required keys the construction raises. -/
theorem from_dict_never_raises_amended (parseIso : String → Option Nat) (now : Nat)
    (data : List (String × RawVal))
    (hn : (data.lookup "name").isSome = true)
    (hc : (data.lookup "city").isSome = true)
    (hs : (data.lookup "state").isSome = true) :
    ∃ result, Company.from_dict parseIso now data = some result ∧
      (∀ kv ∈ result, kv.1 ∈ validFields) ∧
      (∀ s, data.lookup "lead_score" = some (RawVal.vstr s) → pyIntParse s = Option.none →
        result.lookup "lead_score" = some (RawVal.vint 50)) ∧
      (∀ s, data.lookup "scraped_at" = some (RawVal.vstr s) →
        parseIso (s.replace "Z" "+00:00") = Option.none →
        result.lookup "scraped_at" = some (RawVal.vdt now)) := by
  refine ⟨fillDefaults now
    ((coerceStrField (coerceStrField data "scraped_at" (fun s =>
        match parseIso (s.replace "Z" "+00:00") with
        | some t => RawVal.vdt t
        | Option.none => RawVal.vdt now)) "lead_score" (fun s =>
        match pyIntParse s with
        | some n => RawVal.vint n
        | Option.none => RawVal.vint 50)).filter (fun kv => validFields.contains kv.1)),
    ?_, ?_, ?_, ?_⟩
  · unfold Company.from_dict
    rw [if_pos]
    rw [lookup_filter_keys _ _ "name" (by decide),
      lookup_filter_keys _ _ "city" (by decide),
      lookup_filter_keys _ _ "state" (by decide)]
    rw [lookup_coerce_isSome _ _ "name" _ (lookup_coerce_isSome _ _ "name" _ hn),
      lookup_coerce_isSome _ _ "city" _ (lookup_coerce_isSome _ _ "city" _ hc),
      lookup_coerce_isSome _ _ "state" _ (lookup_coerce_isSome _ _ "state" _ hs)]
    rfl
  · intro kv hkv
    unfold fillDefaults at hkv
    rcases List.mem_append.mp hkv with hmem | hmem
    · have := List.mem_filter.mp hmem
      have hcontains := this.2
      simpa using hcontains
    · exact companyDefaults_keys now kv (List.mem_filter.mp hmem).1
  · intro s hls hbad
    have h1 : (coerceStrField data "scraped_at" (fun s =>
        match parseIso (s.replace "Z" "+00:00") with
        | some t => RawVal.vdt t
        | Option.none => RawVal.vdt now)).lookup "lead_score" =
        some (RawVal.vstr s) := by
      rw [lookup_coerce_ne _ _ _ _ (by decide)]
      exact hls
    have h2 : (coerceStrField (coerceStrField data "scraped_at" (fun s =>
        match parseIso (s.replace "Z" "+00:00") with
        | some t => RawVal.vdt t
        | Option.none => RawVal.vdt now)) "lead_score" (fun s =>
        match pyIntParse s with
        | some n => RawVal.vint n
        | Option.none => RawVal.vint 50)).lookup "lead_score" = some (RawVal.vint 50) := by
      rw [lookup_coerce_str _ _ _ s h1, hbad]
    unfold fillDefaults
    rw [lookup_append_left _ _ "lead_score" (by
      rw [lookup_filter_keys _ _ "lead_score" (by decide), h2]; rfl)]
    rw [lookup_filter_keys _ _ "lead_score" (by decide), h2]
  · intro s hls hbad
    have h1 : (coerceStrField data "scraped_at" (fun s =>
        match parseIso (s.replace "Z" "+00:00") with
        | some t => RawVal.vdt t
        | Option.none => RawVal.vdt now)).lookup "scraped_at" =
        some (RawVal.vdt now) := by
      rw [lookup_coerce_str _ _ _ s hls, hbad]
    have h2 : (coerceStrField (coerceStrField data "scraped_at" (fun s =>
        match parseIso (s.replace "Z" "+00:00") with
        | some t => RawVal.vdt t
        | Option.none => RawVal.vdt now)) "lead_score" (fun s =>
        match pyIntParse s with
        | some n => RawVal.vint n
        | Option.none => RawVal.vint 50)).lookup "scraped_at" = some (RawVal.vdt now) := by
      rw [lookup_coerce_ne _ _ _ _ (by decide)]
      exact h1
    unfold fillDefaults
    rw [lookup_append_left _ _ "scraped_at" (by
      rw [lookup_filter_keys _ _ "scraped_at" (by decide), h2]; rfl)]
    rw [lookup_filter_keys _ _ "scraped_at" (by decide), h2]

/-- Witness for `from_dict_never_raises_amended`: a record with the
required fields, an extra unknown key, and an unparsable `lead_score`
normalizes successfully. -/
theorem from_dict_never_raises_amended_witness :
    ∃ result, Company.from_dict (fun _ => Option.none) 7
        [("name", RawVal.vstr "A"), ("city", RawVal.vstr "B"), ("state", RawVal.vstr "C"),
         ("lead_score", RawVal.vstr "n/a"), ("bogus", RawVal.vint 3)] = some result ∧
      (∀ kv ∈ result, kv.1 ∈ validFields) ∧
      (∀ s, [("name", RawVal.vstr "A"), ("city", RawVal.vstr "B"), ("state", RawVal.vstr "C"),
          ("lead_score", RawVal.vstr "n/a"), ("bogus", RawVal.vint 3)].lookup "lead_score" =
            some (RawVal.vstr s) → pyIntParse s = Option.none →
        result.lookup "lead_score" = some (RawVal.vint 50)) ∧
      (∀ s, [("name", RawVal.vstr "A"), ("city", RawVal.vstr "B"), ("state", RawVal.vstr "C"),
          ("lead_score", RawVal.vstr "n/a"), ("bogus", RawVal.vint 3)].lookup "scraped_at" =
            some (RawVal.vstr s) →
        (fun _ => (Option.none : Option Nat)) (s.replace "Z" "+00:00") = Option.none →
        result.lookup "scraped_at" = some (RawVal.vdt 7)) :=
  from_dict_never_raises_amended (fun _ => Option.none) 7
    [("name", RawVal.vstr "A"), ("city", RawVal.vstr "B"), ("state", RawVal.vstr "C"),
     ("lead_score", RawVal.vstr "n/a"), ("bogus", RawVal.vint 3)]
    (by decide) (by decide) (by decide)

end LeadGen
